import Mathlib

/-!
# Tic-tac-toe session coordinator (`tictactoe/main.go`)

A shallow embedding of the matchmaking queue, the match registry and the
per-match state machine of `tictactoe/main.go`, followed by the properties
proved about them.

Modelling conventions

* `*Player` pointers are addresses (`PlayerRef`) into a heap `PlayerRef → Player`;
  the waiting queue and `Room.Players` hold addresses, exactly as the Go slices
  hold pointers.
* `*websocket.Conn` is an opaque connection identity (`Conn`); `sendMessage conn msg`
  is recorded as the pair `(conn, msg)` in the list of sends an operation returns
  (a failing write is only logged by the source, so it changes no state).
* The maps `rooms` and `players` are functions into `Option`.
* The strings produced by `randomString` are inputs of the operations that draw them.
* Every handler holds `roomMutex` from entry to return, so each operation is one atomic
  step of the state. The `Lock`/`Unlock` calls of `handleMessage` and `handleMove` are
  embedded separately, as the list of lock steps a call runs (`handleMessageLocks`),
  with two goroutines interleaving such lists (`Goroutines`).
-/

set_option linter.dupNamespace false

namespace TicTacToe

/-- Identity of a websocket connection (`*websocket.Conn`). -/
abbrev Conn := Nat

/-- Address of a `Player` object (`*Player`). -/
abbrev PlayerRef := Nat

/-- The Go type `[3][3]string`. -/
abbrev Board := Fin 3 → Fin 3 → String

/-- The zero value of `[3][3]string`, also the literal board of a new room. -/
def emptyBoard : Board := fun _ _ => ""

/-- The Go struct `Player`. -/
structure Player where
  ID : String
  Conn : Conn
  Symbol : String
  RoomID : String
  IsReady : Bool

/-- The Go struct `Room` (without its mutex). -/
structure Room where
  ID : String
  Players : List PlayerRef
  Board : Board
  Turn : String
  Status : String
  Winner : String

/-- The Go struct `Message`; a field that a literal leaves out has its zero value.
(`Type_` is the Go field `Type`.) -/
structure Message where
  Type_ : String := ""
  PlayerID : String := ""
  RoomID : String := ""
  Symbol : String := ""
  Row : Int := 0
  Col : Int := 0
  Board : Board := emptyBoard
  Turn : String := ""
  Status : String := ""
  Winner : String := ""
  Error : String := ""
  Message : String := ""

/-- One call `sendMessage conn msg`. -/
abbrev Send := Conn × Message

/-- The package-level variables `rooms`, `players`, `waitingQueue`, `roomCounter`,
together with the heap of `Player` objects the pointers refer to. -/
structure Server where
  heap : PlayerRef → Player
  rooms : String → Option Room
  players : String → Option PlayerRef
  waitingQueue : List PlayerRef
  roomCounter : Int

/-- `generatePlayerID`: `"player_" + randomString(8)`; `rnd` is the random string. -/
def generatePlayerID (rnd : String) : String := "player_" ++ rnd

/-- `generateRoomID`: `"room_" + randomString(6)`; the counter is ignored by the source. -/
def generateRoomID (_counter : Int) (rnd : String) : String := "room_" ++ rnd

/-- `roomCounter++` on a 64-bit `int`. -/
def incrCounter (c : Int) : Int := (c + 1 + 2 ^ 63) % 2 ^ 64 - 2 ^ 63

/-- Array index for a coordinate that has passed the bounds check `0 ≤ x ≤ 2`. -/
def idx (x : Int) : Fin 3 := ⟨x.toNat % 3, Nat.mod_lt _ (by decide)⟩

/-- The assignment `board[i][j] = v`. -/
def setCell (board : Board) (i j : Fin 3) (v : String) : Board :=
  Function.update board i (Function.update (board i) j v)

/-- The condition of the row loop of `checkWinner` at index `i`. -/
def rowFilled (board : Board) (i : Fin 3) : Bool :=
  decide (board i 0 ≠ "" ∧ board i 0 = board i 1 ∧ board i 1 = board i 2)

/-- The condition of the column loop of `checkWinner` at index `i`. -/
def colFilled (board : Board) (i : Fin 3) : Bool :=
  decide (board 0 i ≠ "" ∧ board 0 i = board 1 i ∧ board 1 i = board 2 i)

/-- The condition of the first diagonal check of `checkWinner`. -/
def diagFilled (board : Board) : Bool :=
  decide (board 0 0 ≠ "" ∧ board 0 0 = board 1 1 ∧ board 1 1 = board 2 2)

/-- The condition of the second diagonal check of `checkWinner`. -/
def antiDiagFilled (board : Board) : Bool :=
  decide (board 0 2 ≠ "" ∧ board 0 2 = board 1 1 ∧ board 1 1 = board 2 0)

/-- `checkWinner`: rows `i = 0, 1, 2`, then columns `i = 0, 1, 2`, then the two
diagonals; the first line of three equal non-empty cells gives the result. -/
def checkWinner (board : Board) : String :=
  match ([0, 1, 2] : List (Fin 3)).find? (rowFilled board) with
  | some i => board i 0
  | none =>
    match ([0, 1, 2] : List (Fin 3)).find? (colFilled board) with
    | some i => board 0 i
    | none =>
      if diagFilled board then board 0 0
      else if antiDiagFilled board then board 0 2
      else ""

/-- `isBoardFull`: false as soon as a cell is the empty string. -/
def isBoardFull (board : Board) : Bool :=
  ([0, 1, 2] : List (Fin 3)).all fun i =>
    ([0, 1, 2] : List (Fin 3)).all fun j => decide (board i j ≠ "")

/-- The `statusMsg` computed in the broadcast loop of `handleMove` for a seated
player whose `Symbol` is `sym`. -/
def statusMsg (room : Room) (sym : String) : String :=
  if room.Status = "finished" then
    if room.Winner = "draw" then "Game ended in a draw!"
    else if room.Winner = sym then "You won!"
    else "You lost!"
  else if room.Turn = sym then "Your turn"
  else "Opponent's turn"

/-- The `update` message built in the broadcast loop of `handleMove`. -/
def updateMessage (room : Room) (sym : String) : Message :=
  { Type_ := "update", Board := room.Board, Turn := room.Turn,
    Status := statusMsg room sym, Winner := room.Winner, Message := statusMsg room sym }

/-- The `error` message with the given text. -/
def errorMessage (text : String) : Message := { Type_ := "error", Error := text }

/-- The room after the win/draw/turn update of `handleMove` (lines 244-261), where
`board` is the board with the new mark placed. -/
def settle (room : Room) (board : Board) : Room :=
  if checkWinner board ≠ "" then
    { room with Board := board, Status := "finished", Winner := checkWinner board, Turn := "" }
  else if isBoardFull board then
    { room with Board := board, Status := "finished", Winner := "draw", Turn := "" }
  else
    { room with Board := board, Turn := if room.Turn = "X" then "O" else "X" }

/-- The broadcast loop of `handleMove` (lines 263-288). -/
def broadcast (heap : PlayerRef → Player) (room : Room) : List Send :=
  room.Players.map fun p => ((heap p).Conn, updateMessage room (heap p).Symbol)

/-- `handleMove`: the room after the call and the messages sent, in order. -/
def handleMove (heap : PlayerRef → Player) (player : PlayerRef) (room : Room)
    (msg : Message) : Room × List Send :=
  if room.Turn ≠ (heap player).Symbol then
    (room, [((heap player).Conn, errorMessage "Not your turn")])
  else if msg.Row < 0 ∨ msg.Row > 2 ∨ msg.Col < 0 ∨ msg.Col > 2 then
    (room, [((heap player).Conn, errorMessage "Invalid coordinates")])
  else if room.Board (idx msg.Row) (idx msg.Col) ≠ "" then
    (room, [((heap player).Conn, errorMessage "Cell already occupied")])
  else
    let room1 := settle room (setCell room.Board (idx msg.Row) (idx msg.Col) (heap player).Symbol)
    (room1, broadcast heap room1)

/-- The `Room` literal of `matchPlayer` (lines 146-153). -/
def newRoom (roomID : String) (opponent player : PlayerRef) : Room :=
  { ID := roomID, Players := [opponent, player], Board := emptyBoard,
    Turn := "X", Status := "playing", Winner := "" }

/-- The `matched` notice of `matchPlayer`. -/
def matchedMessage (playerID roomID symbol : String) (room : Room) (text : String) : Message :=
  { Type_ := "matched", PlayerID := playerID, RoomID := roomID, Symbol := symbol,
    Board := room.Board, Turn := room.Turn, Status := room.Status, Message := text }

/-- The `waiting` notice of `matchPlayer`. -/
def waitingMessage : Message :=
  { Type_ := "waiting", Message := "Waiting for another player..." }

/-- `matchPlayer`; `rnd` is the random string drawn by `generateRoomID` (drawn only
when the queue is non-empty). -/
def matchPlayer (s : Server) (player : PlayerRef) (rnd : String) : Server × List Send :=
  match s.waitingQueue with
  | [] =>
    ({ s with waitingQueue := s.waitingQueue ++ [player] },
      [((s.heap player).Conn, waitingMessage)])
  | opponent :: rest =>
    let counter := incrCounter s.roomCounter
    let roomID := generateRoomID counter rnd
    let room := newRoom roomID opponent player
    let heap1 := Function.update s.heap opponent
      { s.heap opponent with Symbol := "X", RoomID := roomID, IsReady := true }
    let heap2 := Function.update heap1 player
      { heap1 player with Symbol := "O", RoomID := roomID, IsReady := true }
    ({ s with heap := heap2, waitingQueue := rest, roomCounter := counter,
              rooms := Function.update s.rooms roomID (some room) },
      [((heap2 opponent).Conn,
          matchedMessage (heap2 opponent).ID roomID "X" room "Game started! You are X. Your turn."),
       ((heap2 player).Conn,
          matchedMessage (heap2 player).ID roomID "O" room
            "Game started! You are O. Waiting for X...")])

/-- `handleMessage`: look the sender's room up, dispatch a `move`, ignore other types. -/
def handleMessage (s : Server) (player : PlayerRef) (msg : Message) : Server × List Send :=
  match s.rooms (s.heap player).RoomID with
  | none => (s, [((s.heap player).Conn, errorMessage "Room not found")])
  | some room =>
    if msg.Type_ = "move" then
      let r := handleMove s.heap player room msg
      ({ s with rooms := Function.update s.rooms (s.heap player).RoomID (some r.1) }, r.2)
    else (s, [])

/-- The queue loop of `handleDisconnect` (lines 337-342): drop the first queued
player whose `ID` equals `id`. -/
def removeFromQueue (heap : PlayerRef → Player) (id : String) : List PlayerRef → List PlayerRef
  | [] => []
  | p :: rest => if (heap p).ID = id then rest else p :: removeFromQueue heap id rest

/-- The `opponent_disconnected` notice. -/
def opponentDisconnectedMessage : Message :=
  { Type_ := "opponent_disconnected", Message := "Opponent disconnected" }

/-- `handleDisconnect`. -/
def handleDisconnect (s : Server) (player : PlayerRef) : Server × List Send :=
  let players1 := Function.update s.players (s.heap player).ID none
  let queue1 := removeFromQueue s.heap (s.heap player).ID s.waitingQueue
  if (s.heap player).RoomID ≠ "" then
    match s.rooms (s.heap player).RoomID with
    | some room =>
      ({ s with players := players1, waitingQueue := queue1,
                rooms := Function.update s.rooms (s.heap player).RoomID none },
        (room.Players.filter fun p => decide ((s.heap p).ID ≠ (s.heap player).ID)).map
          fun p => ((s.heap p).Conn, opponentDisconnectedMessage))
    | none => ({ s with players := players1, waitingQueue := queue1 }, [])
  else ({ s with players := players1, waitingQueue := queue1 }, [])

/-- The `connected` notice of `handleWebSocket`. -/
def connectedMessage (playerID : String) : Message :=
  { Type_ := "connected", PlayerID := playerID,
    Message := "Connected to server. Waiting for opponent..." }

/-- `handleWebSocket` up to its receive loop (lines 85-108): a new `Player` object is
allocated at address `ref` for connection `conn`, registered, greeted and handed to
`matchPlayer`. `rndID` and `rndRoom` are the random strings drawn. -/
def handleWebSocket (s : Server) (ref : PlayerRef) (conn : Conn) (rndID rndRoom : String) :
    Server × List Send :=
  let playerID := generatePlayerID rndID
  let s1 : Server :=
    { s with heap := Function.update s.heap ref
               { ID := playerID, Conn := conn, Symbol := "", RoomID := "", IsReady := false },
             players := Function.update s.players playerID (some ref) }
  let r := matchPlayer s1 ref rndRoom
  (r.1, (conn, connectedMessage playerID) :: r.2)

/-- The server at start-up: empty registry, empty player table, empty queue. The heap
holds no live object; its content at an address is overwritten at allocation. -/
def Server.start : Server :=
  { heap := fun _ => { ID := "", Conn := 0, Symbol := "", RoomID := "", IsReady := false },
    rooms := fun _ => none, players := fun _ => none, waitingQueue := [], roomCounter := 0 }

/-! ## Lock steps -/

/-- The mutexes of the program: the package-level `roomMutex` and `playerMutex`, and
the field `mutex` of the room registered under an id. -/
inductive Mutex
  | roomMutex
  | playerMutex
  | roomLock (roomID : String)
  deriving DecidableEq

/-- A call `m.Lock()` or `m.Unlock()`. -/
inductive LockStep
  | lock (m : Mutex)
  | unlock (m : Mutex)
  deriving DecidableEq

/-- The lock steps of `handleMove` on the room registered under `roomID`:
`room.mutex.Lock()` on entry and the deferred `room.mutex.Unlock()` on return. -/
def handleMoveLocks (roomID : String) : List LockStep :=
  [LockStep.lock (Mutex.roomLock roomID), LockStep.unlock (Mutex.roomLock roomID)]

/-- The lock steps of `handleMessage`, in program order: `roomMutex.Lock()` on entry,
the steps of `handleMove` when the room exists and the message is a `move`, and the
deferred `roomMutex.Unlock()` on return. -/
def handleMessageLocks (s : Server) (player : PlayerRef) (msg : Message) : List LockStep :=
  match s.rooms (s.heap player).RoomID with
  | none => [LockStep.lock Mutex.roomMutex, LockStep.unlock Mutex.roomMutex]
  | some _ =>
    if msg.Type_ = "move" then
      [LockStep.lock Mutex.roomMutex] ++ handleMoveLocks (s.heap player).RoomID ++
        [LockStep.unlock Mutex.roomMutex]
    else [LockStep.lock Mutex.roomMutex, LockStep.unlock Mutex.roomMutex]

/-- Two goroutines (`false` and `true`) running lock steps: the mutexes held, each
with its holder, and the steps each goroutine has still to run. -/
structure Goroutines where
  held : List (Mutex × Bool)
  rest : Bool → List LockStep

/-- Goroutine `who` waits: its next step locks a mutex that is held (`sync.Mutex` is
not reentrant, so any holder blocks). -/
def waits (g : Goroutines) (who : Bool) : Bool :=
  match g.rest who with
  | LockStep.lock m :: _ => g.held.any fun h => decide (h.1 = m)
  | _ => false

/-- Goroutine `who` is scheduled: it runs its next step, unless it has to wait. -/
def schedule (g : Goroutines) (who : Bool) : Goroutines :=
  match g.rest who with
  | [] => g
  | LockStep.lock m :: tail =>
    if g.held.any (fun h => decide (h.1 = m)) then g
    else { held := (m, who) :: g.held, rest := Function.update g.rest who tail }
  | LockStep.unlock m :: tail =>
    { held := g.held.filter (fun h => decide (h.1 ≠ m)),
      rest := Function.update g.rest who tail }

/-- Two goroutines start handling a message each: goroutine `false` the message `mp`
of player `p`, goroutine `true` the message `mq` of player `q`. -/
def startHandling (s : Server) (p q : PlayerRef) (mp mq : Message) : Goroutines :=
  { held := [],
    rest := fun who => if who then handleMessageLocks s q mq else handleMessageLocks s p mp }

/-! ## Events -/

/-- What the server reacts to after start-up: a new connection (the address of the new
`Player` object, its connection and the two random strings drawn), a decoded inbound
message of a player, and the end of a player's receive loop. -/
inductive Event
  | connect (ref : PlayerRef) (conn : Conn) (rndID rndRoom : String)
  | message (player : PlayerRef) (msg : Message)
  | disconnect (player : PlayerRef)

/-- The handler the server runs on an event. -/
def handleEvent (s : Server) : Event → Server × List Send
  | Event.connect ref conn rndID rndRoom => handleWebSocket s ref conn rndID rndRoom
  | Event.message player msg => handleMessage s player msg
  | Event.disconnect player => handleDisconnect s player

/-- The server after the events have been handled one at a time, in order. -/
def runEvents (s : Server) : List Event → Server
  | [] => s
  | e :: rest => runEvents (handleEvent s e).1 rest

/-! ## Specification vocabulary -/

/-- A cell position `(row, col)`. -/
abbrev Cell := Fin 3 × Fin 3

/-- The 8 lines of the board: the 3 rows, the 3 columns and the 2 diagonals. -/
def lines : List (Cell × Cell × Cell) :=
  [((0, 0), (0, 1), (0, 2)), ((1, 0), (1, 1), (1, 2)), ((2, 0), (2, 1), (2, 2)),
   ((0, 0), (1, 0), (2, 0)), ((0, 1), (1, 1), (2, 1)), ((0, 2), (1, 2), (2, 2)),
   ((0, 0), (1, 1), (2, 2)), ((0, 2), (1, 1), (2, 0))]

/-- The three cells of line `l` all hold the non-empty mark `m`. -/
def LineOf (board : Board) (m : String) (l : Cell × Cell × Cell) : Prop :=
  m ≠ "" ∧ board l.1.1 l.1.2 = m ∧ board l.2.1.1 l.2.1.2 = m ∧ board l.2.2.1 l.2.2.2 = m

/-- One of the 8 lines holds three cells equal to the non-empty mark `m`. -/
def HasLine (board : Board) (m : String) : Prop := ∃ l ∈ lines, LineOf board m l

/-- All 9 cells are filled. -/
def Full (board : Board) : Prop := ∀ i j, board i j ≠ ""

/-- The move request passes the three checks of `handleMove`: the mover holds the
turn, the coordinates are within `0..2` and the target cell is empty. -/
def Accepted (heap : PlayerRef → Player) (player : PlayerRef) (room : Room)
    (msg : Message) : Prop :=
  room.Turn = (heap player).Symbol ∧ (0 ≤ msg.Row ∧ msg.Row ≤ 2 ∧ 0 ≤ msg.Col ∧ msg.Col ≤ 2) ∧
    room.Board (idx msg.Row) (idx msg.Col) = ""

/-- The rejection condition of `handleMove`: the mover's mark is not the current turn,
or a coordinate lies outside `0..2`, or the target cell is non-empty. -/
def RejectCond (heap : PlayerRef → Player) (player : PlayerRef) (room : Room)
    (msg : Message) : Prop :=
  (heap player).Symbol ≠ room.Turn ∨ msg.Row < 0 ∨ msg.Row > 2 ∨ msg.Col < 0 ∨ msg.Col > 2 ∨
    room.Board (idx msg.Row) (idx msg.Col) ≠ ""

/-- The observable outcome of a rejected move: exactly one message is sent, an `error`
to the requesting player; no `update` is sent to anyone; board, turn, status and
winner are as before. -/
def Rejected (heap : PlayerRef → Player) (player : PlayerRef) (room : Room)
    (msg : Message) : Prop :=
  (∃ text, (handleMove heap player room msg).2 = [((heap player).Conn, errorMessage text)]) ∧
  (∀ s ∈ (handleMove heap player room msg).2, s.2.Type_ ≠ "update") ∧
  (handleMove heap player room msg).1.Board = room.Board ∧
  (handleMove heap player room msg).1.Turn = room.Turn ∧
  (handleMove heap player room msg).1.Status = room.Status ∧
  (handleMove heap player room msg).1.Winner = room.Winner

/-- The board of `room` with the mover's mark placed at the requested cell. -/
def placed (heap : PlayerRef → Player) (player : PlayerRef) (room : Room)
    (msg : Message) : Board :=
  setCell room.Board (idx msg.Row) (idx msg.Col) (heap player).Symbol

/-- The rooms a match can be in: the room `matchPlayer` creates, and every room
obtained from such a room by a call of `handleMove` (any caller, any message). -/
inductive Reachable : Room → Prop
  | fresh (roomID : String) (opponent player : PlayerRef) :
      Reachable (newRoom roomID opponent player)
  | move {room : Room} (heap : PlayerRef → Player) (player : PlayerRef) (msg : Message) :
      Reachable room → Reachable (handleMove heap player room msg).1

/-- The invariant of reachable rooms: every cell is empty, X or O; a finished room
has no turn, a winner among draw, X, O, and a board with a filled line or no empty
cell; a room that is not finished is playing, has turn X or O and no winner. -/
structure RoomInv (room : Room) : Prop where
  cells : ∀ i j, room.Board i j = "" ∨ room.Board i j = "X" ∨ room.Board i j = "O"
  finished : room.Status = "finished" →
    room.Turn = "" ∧ (room.Winner = "draw" ∨ room.Winner = "X" ∨ room.Winner = "O") ∧
      (checkWinner room.Board ≠ "" ∨ isBoardFull room.Board = true)
  active : room.Status ≠ "finished" →
    room.Status = "playing" ∧ (room.Turn = "X" ∨ room.Turn = "O") ∧ room.Winner = ""

/-- The number of steps, in the run of `handleMove` over the requests `moves` from
`room`, at which the status changes from not finished to finished. -/
def finishCount (heap : PlayerRef → Player) : Room → List (PlayerRef × Message) → Nat
  | _, [] => 0
  | room, pm :: rest =>
    (if room.Status ≠ "finished" ∧ (handleMove heap pm.1 room pm.2).1.Status = "finished"
      then 1 else 0) + finishCount heap (handleMove heap pm.1 room pm.2).1 rest

/-- An event that may follow while `opp` stays connected with the stale room id `rid`:
a connection creates a new object, other than the one of `opp`, and the room id it
may draw is not `rid`; messages and disconnects are unrestricted. -/
def laterEvent (opp : PlayerRef) (rid : String) : Event → Prop
  | Event.connect ref _ _ rndRoom => ref ≠ opp ∧ generateRoomID 0 rndRoom ≠ rid
  | Event.message _ _ => True
  | Event.disconnect _ => True

/-- The situation of a surviving opponent `opp`: the room id `rid` it holds names no
room of the registry, its object keeps that id and the connection `c`, and it is not
in the waiting queue. -/
structure Stale (opp : PlayerRef) (rid : String) (c : Conn) (s : Server) : Prop where
  noRoom : s.rooms rid = none
  roomID : (s.heap opp).RoomID = rid
  conn : (s.heap opp).Conn = c
  notQueued : opp ∉ s.waitingQueue

/-! ## Concrete states used to instantiate the theorems -/

/-- An inbound `move` request. -/
def moveRequest (row col : Int) : Message := { Type_ := "move", Row := row, Col := col }

/-- The server after a first player has connected (object 1, connection 101). -/
def serverOne : Server := (handleWebSocket Server.start 1 101 "aaaaaaaa" "r1").1

/-- The server after a second player has connected (object 2, connection 102). -/
def serverTwo : Server := (handleWebSocket serverOne 2 102 "bbbbbbbb" "r2").1

/-- A heap in which object 1 holds X and object 2 holds O. -/
def heapXO : PlayerRef → Player := serverTwo.heap

/-- The room of a game X (0,0), O (1,0), X (0,1), O (1,1), X (0,2): X has won row 0. -/
def roomXWon : Room :=
  (handleMove heapXO 1 (handleMove heapXO 2 (handleMove heapXO 1 (handleMove heapXO 2
    (handleMove heapXO 1 (newRoom "room_r2" 1 2) (moveRequest 0 0)).1 (moveRequest 1 0)).1
      (moveRequest 0 1)).1 (moveRequest 1 1)).1 (moveRequest 0 2)).1

/-- The scenario after both players are matched: P1 (object 1, mark X) requests
(0,0). Each step is the server after the request and the messages it sent. -/
def afterP1At00 : Server × List Send := handleMessage serverTwo 1 (moveRequest 0 0)

/-- Then P2 (object 2, mark O) requests the same cell (0,0). -/
def afterP2At00 : Server × List Send := handleMessage afterP1At00.1 2 (moveRequest 0 0)

/-- Then P1 requests (1,0). -/
def afterP1At10 : Server × List Send := handleMessage afterP2At00.1 1 (moveRequest 1 0)

/-- Then P2 requests (0,1). -/
def afterP2At01 : Server × List Send := handleMessage afterP1At10.1 2 (moveRequest 0 1)

/-- Then P1 requests (1,1). -/
def afterP1At11 : Server × List Send := handleMessage afterP2At01.1 1 (moveRequest 1 1)

/-- Then P2 requests (0,2). -/
def afterP2At02 : Server × List Send := handleMessage afterP1At11.1 2 (moveRequest 0 2)

/-- What a message shows of itself: recipient, type, error text, human-readable text. -/
def summary (s : Send) : Conn × String × String × String :=
  (s.1, s.2.Type_, s.2.Error, s.2.Message)

/-- The rows of a board as lists. -/
def rows (b : Board) : List (List String) :=
  [[b 0 0, b 0 1, b 0 2], [b 1 0, b 1 1, b 1 2], [b 2 0, b 2 1, b 2 2]]

/-- Board, turn, status and winner of the scenario's room in server `s`. -/
def roomView (s : Server) : Option (List (List String) × String × String × String) :=
  (s.rooms "room_r2").map fun r => (rows r.Board, r.Turn, r.Status, r.Winner)

/-- The replacement of one mark by the other: X becomes O, O becomes X, every other
string (the empty cell, the empty result) stays. -/
def swapMark (m : String) : String :=
  if m = "X" then "O" else if m = "O" then "X" else m

/-- The board with every X replaced by O and every O replaced by X. -/
def swapBoard (board : Board) : Board := fun i j => swapMark (board i j)

/-- The test `checkWinner` applies to a line: its three cells hold equal non-empty
strings. -/
def lineFilled (board : Board) (l : Cell × Cell × Cell) : Bool :=
  decide (board l.1.1 l.1.2 ≠ "" ∧ board l.1.1 l.1.2 = board l.2.1.1 l.2.1.2 ∧
    board l.2.1.1 l.2.1.2 = board l.2.2.1 l.2.2.2)

/-- A winner scan that visits the lines in the order of the list `order`: the mark of
the first filled line, the empty string when no line of the list is filled. -/
def scanLines (order : List (Cell × Cell × Cell)) (board : Board) : String :=
  match order.find? (lineFilled board) with
  | some l => board l.1.1 l.1.2
  | none => ""

/-- The number of lines among the 8 that hold three equal non-empty marks. -/
def countFilled (board : Board) : Nat := lines.countP (lineFilled board)

/-- The 9 cells of the board. -/
def allCells : List Cell :=
  [(0, 0), (0, 1), (0, 2), (1, 0), (1, 1), (1, 2), (2, 0), (2, 1), (2, 2)]

/-- The number of cells of the board that hold the string `m`. -/
def countMark (board : Board) (m : String) : Nat :=
  allCells.countP fun c => decide (board c.1 c.2 = m)

/-- A board of truth values given by its 9 cells, row by row. -/
def boolBoard (a0 a1 a2 a3 a4 a5 a6 a7 a8 : Bool) : Fin 3 → Fin 3 → Bool := fun i j =>
  match i.val, j.val with
  | 0, 0 => a0
  | 0, 1 => a1
  | 0, _ => a2
  | 1, 0 => a3
  | 1, 1 => a4
  | 1, _ => a5
  | _, 0 => a6
  | _, 1 => a7
  | _, _ => a8

/-- The three cells of line `l` are all true in `g`. -/
def lineTrue (g : Fin 3 → Fin 3 → Bool) (l : Cell × Cell × Cell) : Bool :=
  g l.1.1 l.1.2 && g l.2.1.1 l.2.1.2 && g l.2.2.1 l.2.2.2

/-- The counting invariant of reachable rooms: at most two lines are filled; in a
room that is not finished X and O have moved equally often when the turn is X, and X
once more than O when the turn is O. -/
structure CountInv (room : Room) : Prop where
  lines_le : countFilled room.Board ≤ 2
  turnX : room.Status ≠ "finished" → room.Turn = "X" →
    countMark room.Board "X" = countMark room.Board "O"
  turnO : room.Status ≠ "finished" → room.Turn = "O" →
    countMark room.Board "X" = countMark room.Board "O" + 1

/-- The room after the requests `moves` have been given to `handleMove`, in order. -/
def runMoves (heap : PlayerRef → Player) : Room → List (PlayerRef × Message) → Room
  | room, [] => room
  | room, pm :: rest => runMoves heap (handleMove heap pm.1 room pm.2).1 rest

/-- The game X (0,1), O (1,1), X (0,2), O (1,2), X (1,0), O (2,1), X (2,0), O (2,2)
from a new room: eight marks, no filled line. -/
def roomEightMoves : Room :=
  runMoves heapXO (newRoom "room_r2" 1 2)
    [(1, moveRequest 0 1), (2, moveRequest 1 1), (1, moveRequest 0 2), (2, moveRequest 1 2),
     (1, moveRequest 1 0), (2, moveRequest 2 1), (1, moveRequest 2 0), (2, moveRequest 2 2)]

/-- The room after the ninth move X (0,0), which fills row 0 and column 0 at once. -/
def roomTwoLines : Room := (handleMove heapXO 1 roomEightMoves (moveRequest 0 0)).1

/-- The room after X (0,0), O (1,0), X (0,1), O (1,1): X is about to fill row 0. -/
def roomXToWin : Room :=
  runMoves heapXO (newRoom "room_r2" 1 2)
    [(1, moveRequest 0 0), (2, moveRequest 1 0), (1, moveRequest 0 1), (2, moveRequest 1 1)]

/-- The server after four players have connected: players 1 and 2 are seated in room
`room_r2`, players 3 and 4 in room `room_r4`. -/
def serverFour : Server :=
  (handleWebSocket (handleWebSocket serverTwo 3 103 "cccccccc" "r3").1 4 104 "dddddddd" "r4").1

/-- The server after two players have connected and drawn the same player id: both
are seated in room `room_r2`. -/
def serverSameID : Server :=
  (handleWebSocket (handleWebSocket Server.start 1 101 "aaaaaaaa" "r1").1 2 102
    "aaaaaaaa" "r2").1

/-! ## Lemmas on the board functions -/

theorem hasLine_of_checkWinner_cases (b : Board) :
    (checkWinner b = "" ∧ ∀ m, ¬ HasLine b m) ∨
      (checkWinner b ≠ "" ∧ HasLine b (checkWinner b)) := by
  rcases Bool.eq_false_or_eq_true (rowFilled b 0) with r0 | r0
  · have e : checkWinner b = b 0 0 := by simp only [checkWinner, List.find?, r0]
    have h := of_decide_eq_true r0
    refine Or.inr ⟨by rw [e]; exact h.1, ((0, 0), (0, 1), (0, 2)), by simp [lines], ?_⟩
    rw [e]; exact ⟨h.1, rfl, h.2.1.symm, (h.2.1.trans h.2.2).symm⟩
  rcases Bool.eq_false_or_eq_true (rowFilled b 1) with r1 | r1
  · have e : checkWinner b = b 1 0 := by simp only [checkWinner, List.find?, r0, r1]
    have h := of_decide_eq_true r1
    refine Or.inr ⟨by rw [e]; exact h.1, ((1, 0), (1, 1), (1, 2)), by simp [lines], ?_⟩
    rw [e]; exact ⟨h.1, rfl, h.2.1.symm, (h.2.1.trans h.2.2).symm⟩
  rcases Bool.eq_false_or_eq_true (rowFilled b 2) with r2 | r2
  · have e : checkWinner b = b 2 0 := by simp only [checkWinner, List.find?, r0, r1, r2]
    have h := of_decide_eq_true r2
    refine Or.inr ⟨by rw [e]; exact h.1, ((2, 0), (2, 1), (2, 2)), by simp [lines], ?_⟩
    rw [e]; exact ⟨h.1, rfl, h.2.1.symm, (h.2.1.trans h.2.2).symm⟩
  rcases Bool.eq_false_or_eq_true (colFilled b 0) with c0 | c0
  · have e : checkWinner b = b 0 0 := by simp only [checkWinner, List.find?, r0, r1, r2, c0]
    have h := of_decide_eq_true c0
    refine Or.inr ⟨by rw [e]; exact h.1, ((0, 0), (1, 0), (2, 0)), by simp [lines], ?_⟩
    rw [e]; exact ⟨h.1, rfl, h.2.1.symm, (h.2.1.trans h.2.2).symm⟩
  rcases Bool.eq_false_or_eq_true (colFilled b 1) with c1 | c1
  · have e : checkWinner b = b 0 1 := by
      simp only [checkWinner, List.find?, r0, r1, r2, c0, c1]
    have h := of_decide_eq_true c1
    refine Or.inr ⟨by rw [e]; exact h.1, ((0, 1), (1, 1), (2, 1)), by simp [lines], ?_⟩
    rw [e]; exact ⟨h.1, rfl, h.2.1.symm, (h.2.1.trans h.2.2).symm⟩
  rcases Bool.eq_false_or_eq_true (colFilled b 2) with c2 | c2
  · have e : checkWinner b = b 0 2 := by
      simp only [checkWinner, List.find?, r0, r1, r2, c0, c1, c2]
    have h := of_decide_eq_true c2
    refine Or.inr ⟨by rw [e]; exact h.1, ((0, 2), (1, 2), (2, 2)), by simp [lines], ?_⟩
    rw [e]; exact ⟨h.1, rfl, h.2.1.symm, (h.2.1.trans h.2.2).symm⟩
  rcases Bool.eq_false_or_eq_true (diagFilled b) with d0 | d0
  · have e : checkWinner b = b 0 0 := by
      simp only [checkWinner, List.find?, r0, r1, r2, c0, c1, c2, d0, if_true]
    have h := of_decide_eq_true d0
    refine Or.inr ⟨by rw [e]; exact h.1, ((0, 0), (1, 1), (2, 2)), by simp [lines], ?_⟩
    rw [e]; exact ⟨h.1, rfl, h.2.1.symm, (h.2.1.trans h.2.2).symm⟩
  rcases Bool.eq_false_or_eq_true (antiDiagFilled b) with d1 | d1
  · have e : checkWinner b = b 0 2 := by
      simp [checkWinner, List.find?, r0, r1, r2, c0, c1, c2, d0, d1]
    have h := of_decide_eq_true d1
    refine Or.inr ⟨by rw [e]; exact h.1, ((0, 2), (1, 1), (2, 0)), by simp [lines], ?_⟩
    rw [e]; exact ⟨h.1, rfl, h.2.1.symm, (h.2.1.trans h.2.2).symm⟩
  refine Or.inl ⟨by simp [checkWinner, List.find?, r0, r1, r2, c0, c1, c2, d0, d1], ?_⟩
  rintro m ⟨l, hl, hm, h1, h2, h3⟩
  simp only [lines, List.mem_cons, List.mem_singleton, List.not_mem_nil, or_false] at hl
  have key : ∀ x y z : String, x = m → y = m → z = m → x ≠ "" ∧ x = y ∧ y = z :=
    fun x y z hx hy hz => ⟨hx ▸ hm, hx.trans hy.symm, hy.trans hz.symm⟩
  rcases hl with rfl | rfl | rfl | rfl | rfl | rfl | rfl | rfl
  · exact of_decide_eq_false r0 (key _ _ _ h1 h2 h3)
  · exact of_decide_eq_false r1 (key _ _ _ h1 h2 h3)
  · exact of_decide_eq_false r2 (key _ _ _ h1 h2 h3)
  · exact of_decide_eq_false c0 (key _ _ _ h1 h2 h3)
  · exact of_decide_eq_false c1 (key _ _ _ h1 h2 h3)
  · exact of_decide_eq_false c2 (key _ _ _ h1 h2 h3)
  · exact of_decide_eq_false d0 (key _ _ _ h1 h2 h3)
  · exact of_decide_eq_false d1 (key _ _ _ h1 h2 h3)

theorem isBoardFull_iff (b : Board) : isBoardFull b = true ↔ Full b := by
  constructor
  · intro h i j
    simp only [isBoardFull, List.all_cons, List.all_nil, Bool.and_true, Bool.and_eq_true,
      decide_eq_true_eq] at h
    fin_cases i <;> fin_cases j <;> simp_all
  · intro h
    simp [isBoardFull, h 0, h 1, h 2]

theorem checkWinner_ne_iff (b : Board) : checkWinner b ≠ "" ↔ ∃ m, HasLine b m := by
  rcases hasLine_of_checkWinner_cases b with ⟨h0, hn⟩ | ⟨h1, hl⟩
  · exact ⟨fun h => absurd h0 h, fun ⟨m, hm⟩ => absurd hm (hn m)⟩
  · exact ⟨fun _ => ⟨_, hl⟩, fun _ => h1⟩

theorem not_rejectCond_iff (heap : PlayerRef → Player) (player : PlayerRef) (room : Room)
    (msg : Message) : ¬ RejectCond heap player room msg ↔ Accepted heap player room msg := by
  unfold RejectCond Accepted
  constructor
  · intro h
    simp only [not_or, not_not, not_lt, gt_iff_lt] at h
    exact ⟨h.1.symm, ⟨h.2.1, h.2.2.1, h.2.2.2.1, h.2.2.2.2.1⟩, h.2.2.2.2.2⟩
  · rintro ⟨h1, ⟨h2, h3, h4, h5⟩, h6⟩
    simp only [not_or, not_not, not_lt, gt_iff_lt]
    exact ⟨h1.symm, h2, h3, h4, h5, h6⟩

theorem handleMove_of_accepted (heap : PlayerRef → Player) (player : PlayerRef) (room : Room)
    (msg : Message) (h : Accepted heap player room msg) :
    handleMove heap player room msg =
      (settle room (placed heap player room msg),
        broadcast heap (settle room (placed heap player room msg))) := by
  obtain ⟨h1, ⟨h2, h3, h4, h5⟩, h6⟩ := h
  have hb : ¬ (msg.Row < 0 ∨ msg.Row > 2 ∨ msg.Col < 0 ∨ msg.Col > 2) := by omega
  simp only [handleMove, placed, h1, ne_eq, not_true_eq_false, if_false, hb, h6]

theorem handleMove_of_rejectCond (heap : PlayerRef → Player) (player : PlayerRef) (room : Room)
    (msg : Message) (h : RejectCond heap player room msg) :
    ∃ text, handleMove heap player room msg =
      (room, [((heap player).Conn, errorMessage text)]) := by
  unfold handleMove
  split_ifs with h1 h2 h3
  · exact ⟨_, rfl⟩
  · exact ⟨_, rfl⟩
  · exact ⟨_, rfl⟩
  · exfalso
    rcases h with h | h | h | h | h | h
    · exact h1 (fun e => h e.symm)
    · exact h2 (Or.inl h)
    · exact h2 (Or.inr (Or.inl h))
    · exact h2 (Or.inr (Or.inr (Or.inl h)))
    · exact h2 (Or.inr (Or.inr (Or.inr h)))
    · exact h3 h

theorem settle_of_winner (room : Room) (b : Board) (h : checkWinner b ≠ "") :
    settle room b =
      { room with Board := b, Status := "finished", Winner := checkWinner b, Turn := "" } := by
  unfold settle; rw [if_pos h]

theorem settle_of_full (room : Room) (b : Board) (h : checkWinner b = "")
    (hf : isBoardFull b = true) :
    settle room b = { room with Board := b, Status := "finished", Winner := "draw", Turn := "" } := by
  unfold settle; rw [if_neg (not_not.2 h), if_pos hf]

theorem settle_of_open (room : Room) (b : Board) (h : checkWinner b = "")
    (hf : ¬ isBoardFull b = true) :
    settle room b = { room with Board := b, Turn := if room.Turn = "X" then "O" else "X" } := by
  unfold settle; rw [if_neg (not_not.2 h), if_neg hf]

theorem settle_players (room : Room) (b : Board) : (settle room b).Players = room.Players := by
  unfold settle; split_ifs <;> rfl

theorem settle_board (room : Room) (b : Board) : (settle room b).Board = b := by
  unfold settle; split_ifs <;> rfl

theorem setCell_same (b : Board) (i j : Fin 3) : setCell b i j (b i j) = b := by
  unfold setCell
  rw [Function.update_eq_self, Function.update_eq_self]

/-- In a reachable room that is finished the turn is cleared, and the board has a
winning line or is full. -/
theorem reachable_finished {room : Room} (hr : Reachable room) :
    room.Status = "finished" →
      room.Turn = "" ∧ (checkWinner room.Board ≠ "" ∨ isBoardFull room.Board = true) := by
  induction hr with
  | fresh roomID opponent player =>
    intro h
    simp [newRoom] at h
  | @move room heap player msg _ ih =>
    by_cases hc : RejectCond heap player room msg
    · obtain ⟨text, ht⟩ := handleMove_of_rejectCond heap player room msg hc
      rw [ht]
      exact ih
    · have ha := (not_rejectCond_iff _ _ _ _).1 hc
      rw [handleMove_of_accepted heap player room msg ha]
      by_cases hw : checkWinner (placed heap player room msg) = ""
      · by_cases hf : isBoardFull (placed heap player room msg) = true
        · rw [settle_of_full room _ hw hf]
          intro _
          exact ⟨rfl, Or.inr hf⟩
        · rw [settle_of_open room _ hw hf]
          intro hfin
          exfalso
          obtain ⟨ht, hwf⟩ := ih hfin
          have hsym : (heap player).Symbol = "" := ha.1.symm.trans ht
          have hb : placed heap player room msg = room.Board := by
            unfold placed
            rw [hsym, ← ha.2.2]
            exact setCell_same _ _ _
          rw [hb] at hw hf
          rcases hwf with h1 | h1
          · exact h1 hw
          · exact hf h1
      · rw [settle_of_winner room _ hw]
        intro _
        exact ⟨rfl, Or.inl hw⟩

theorem handleMove_finished {room : Room} (hr : Reachable room)
    (hf : room.Status = "finished") (heap : PlayerRef → Player) (player : PlayerRef)
    (msg : Message) (hsym : (heap player).Symbol = "X" ∨ (heap player).Symbol = "O") :
    handleMove heap player room msg =
      (room, [((heap player).Conn, errorMessage "Not your turn")]) := by
  have ht := (reachable_finished hr hf).1
  have hne : room.Turn ≠ (heap player).Symbol := by
    rw [ht]
    rcases hsym with h | h <;> rw [h] <;> decide
  unfold handleMove
  rw [if_pos hne]

theorem finishCount_finished (heap : PlayerRef → Player)
    (moves : List (PlayerRef × Message))
    (hm : ∀ pm ∈ moves, (heap pm.1).Symbol = "X" ∨ (heap pm.1).Symbol = "O")
    {room : Room} (hr : Reachable room) (hf : room.Status = "finished") :
    finishCount heap room moves = 0 := by
  induction moves with
  | nil => rfl
  | cons pm rest ih =>
    have h1 := handleMove_finished hr hf heap pm.1 pm.2 (hm pm (List.mem_cons_self _ _))
    simp only [finishCount, h1, hf, ne_eq, not_true_eq_false, false_and, if_false, zero_add]
    exact ih (fun q hq => hm q (List.mem_cons_of_mem _ hq))

theorem finishCount_le_one (heap : PlayerRef → Player)
    (moves : List (PlayerRef × Message))
    (hm : ∀ pm ∈ moves, (heap pm.1).Symbol = "X" ∨ (heap pm.1).Symbol = "O") :
    ∀ {room : Room}, Reachable room → finishCount heap room moves ≤ 1 := by
  induction moves with
  | nil => intro room _; exact Nat.zero_le _
  | cons pm rest ih =>
    intro room hr
    have hm' : ∀ q ∈ rest, (heap q.1).Symbol = "X" ∨ (heap q.1).Symbol = "O" :=
      fun q hq => hm q (List.mem_cons_of_mem _ hq)
    have hnext : Reachable (handleMove heap pm.1 room pm.2).1 := Reachable.move heap pm.1 pm.2 hr
    simp only [finishCount]
    split_ifs with hc
    · rw [finishCount_finished heap rest hm' hnext hc.2]
    · rw [Nat.zero_add]
      exact ih hm' hnext

theorem setCell_apply (b : Board) (i j : Fin 3) (v : String) (r c : Fin 3) :
    setCell b i j v r c = if r = i ∧ c = j then v else b r c := by
  unfold setCell
  by_cases hr : r = i
  · subst hr
    by_cases hc : c = j
    · subst hc; simp
    · simp [Function.update_noteq hc, hc]
  · simp [Function.update_noteq hr, hr]

theorem checkWinner_is_cell (b : Board) (h : checkWinner b ≠ "") :
    ∃ i j, b i j = checkWinner b := by
  rcases hasLine_of_checkWinner_cases b with ⟨h0, -⟩ | ⟨-, l, -, -, h1, -⟩
  · exact absurd h0 h
  · exact ⟨_, _, h1⟩

/-- Every reachable room satisfies the room invariant. -/
theorem reachable_inv {room : Room} (hr : Reachable room) : RoomInv room := by
  induction hr with
  | fresh roomID opponent player =>
    refine ⟨fun i j => Or.inl rfl, ?_, ?_⟩
    · intro h; simp [newRoom] at h
    · intro _; exact ⟨rfl, Or.inl rfl, rfl⟩
  | @move room heap player msg _ ih =>
    by_cases hc : RejectCond heap player room msg
    · obtain ⟨text, ht⟩ := handleMove_of_rejectCond heap player room msg hc
      rw [ht]
      exact ih
    · have ha := (not_rejectCond_iff _ _ _ _).1 hc
      rw [handleMove_of_accepted heap player room msg ha]
      have hturn : room.Turn = "" ∨ room.Turn = "X" ∨ room.Turn = "O" := by
        by_cases hf : room.Status = "finished"
        · exact Or.inl (ih.finished hf).1
        · exact Or.inr (ih.active hf).2.1
      have hcells : ∀ i j, placed heap player room msg i j = "" ∨
          placed heap player room msg i j = "X" ∨ placed heap player room msg i j = "O" := by
        intro i j
        unfold placed
        rw [setCell_apply]
        split_ifs
        · rw [← ha.1]; exact hturn
        · exact ih.cells i j
      by_cases hw : checkWinner (placed heap player room msg) = ""
      · by_cases hf : isBoardFull (placed heap player room msg) = true
        · rw [settle_of_full room _ hw hf]
          exact ⟨hcells, fun _ => ⟨rfl, Or.inl rfl, Or.inr hf⟩, fun h => absurd rfl h⟩
        · rw [settle_of_open room _ hw hf]
          have hact : room.Status ≠ "finished" := by
            intro hfin
            obtain ⟨ht, -, hwf⟩ := ih.finished hfin
            have hsym : (heap player).Symbol = "" := ha.1.symm.trans ht
            have hb : placed heap player room msg = room.Board := by
              unfold placed
              rw [hsym, ← ha.2.2]
              exact setCell_same _ _ _
            rw [hb] at hw hf
            rcases hwf with h1 | h1
            · exact h1 hw
            · exact hf h1
          refine ⟨hcells, fun h => absurd h hact, fun _ => ⟨(ih.active hact).1, ?_, (ih.active hact).2.2⟩⟩
          show (if room.Turn = "X" then "O" else "X") = "X" ∨
            (if room.Turn = "X" then "O" else "X") = "O"
          split_ifs
          · exact Or.inr rfl
          · exact Or.inl rfl
      · rw [settle_of_winner room _ hw]
        refine ⟨hcells, fun _ => ⟨rfl, ?_, Or.inl hw⟩, fun h => absurd rfl h⟩
        obtain ⟨i, j, hij⟩ := checkWinner_is_cell _ hw
        show checkWinner (placed heap player room msg) = "draw" ∨
          checkWinner (placed heap player room msg) = "X" ∨
          checkWinner (placed heap player room msg) = "O"
        rcases hcells i j with h | h | h
        · exact absurd (hij.symm.trans h) hw
        · exact Or.inr (Or.inl (hij.symm.trans h))
        · exact Or.inr (Or.inr (hij.symm.trans h))

theorem swapMark_swapMark (m : String) : swapMark (swapMark m) = m := by
  by_cases h1 : m = "X"
  · rw [h1]; decide
  · by_cases h2 : m = "O"
    · rw [h2]; decide
    · have e : swapMark m = m := by unfold swapMark; rw [if_neg h1, if_neg h2]
      rw [e, e]

theorem swapMark_injective : Function.Injective swapMark :=
  Function.LeftInverse.injective swapMark_swapMark

/-- Relabelling the cells by an injective map that keeps the empty string relabels
the result of `checkWinner`. -/
theorem checkWinner_map (f : String → String) (hf : Function.Injective f) (h0 : f "" = "")
    (b : Board) : checkWinner (fun i j => f (b i j)) = f (checkWinner b) := by
  have ne : ∀ x : String, f x ≠ "" ↔ x ≠ "" := by
    intro x
    constructor
    · intro h e; exact h (by rw [e, h0])
    · intro h e; exact h (hf (e.trans h0.symm))
  have eqv : ∀ x y : String, f x = f y ↔ x = y := fun x y => hf.eq_iff
  have hrow : ∀ i, rowFilled (fun i j => f (b i j)) i = rowFilled b i := by
    intro i; simp only [rowFilled, ne, eqv]
  have hcol : ∀ i, colFilled (fun i j => f (b i j)) i = colFilled b i := by
    intro i; simp only [colFilled, ne, eqv]
  have hd : diagFilled (fun i j => f (b i j)) = diagFilled b := by
    simp only [diagFilled, ne, eqv]
  have ha : antiDiagFilled (fun i j => f (b i j)) = antiDiagFilled b := by
    simp only [antiDiagFilled, ne, eqv]
  have hrowf : rowFilled (fun i j => f (b i j)) = rowFilled b := funext hrow
  have hcolf : colFilled (fun i j => f (b i j)) = colFilled b := funext hcol
  unfold checkWinner
  rw [hrowf, hcolf, hd, ha]
  cases List.find? (rowFilled b) [0, 1, 2] with
  | some i => rfl
  | none =>
    cases List.find? (colFilled b) [0, 1, 2] with
    | some i => rfl
    | none =>
      simp only
      split_ifs
      · rfl
      · rfl
      · exact h0.symm

theorem lineFilled_iff (b : Board) (l : Cell × Cell × Cell) :
    lineFilled b l = true ↔ LineOf b (b l.1.1 l.1.2) l := by
  unfold lineFilled LineOf
  rw [decide_eq_true_eq]
  constructor
  · rintro ⟨h1, h2, h3⟩
    exact ⟨h1, rfl, h2.symm, (h2.trans h3).symm⟩
  · rintro ⟨h1, -, h2, h3⟩
    exact ⟨h1, h2.symm, h2.trans h3.symm⟩

theorem lineOf_first_cell {b : Board} {m : String} {l : Cell × Cell × Cell}
    (h : LineOf b m l) : b l.1.1 l.1.2 = m := h.2.1

/-- The scan of `checkWinner` is the scan of the 8 lines in the order rows, columns,
diagonals. -/
theorem checkWinner_eq_scanLines (b : Board) : checkWinner b = scanLines lines b := by
  have r : ∀ i : Fin 3, lineFilled b ((i, 0), (i, 1), (i, 2)) = rowFilled b i := fun _ => rfl
  have c : ∀ i : Fin 3, lineFilled b ((0, i), (1, i), (2, i)) = colFilled b i := fun _ => rfl
  have d : lineFilled b ((0, 0), (1, 1), (2, 2)) = diagFilled b := rfl
  have a : lineFilled b ((0, 2), (1, 1), (2, 0)) = antiDiagFilled b := rfl
  unfold checkWinner scanLines lines
  simp only [List.find?, r, c, d, a]
  cases rowFilled b 0 <;> cases rowFilled b 1 <;> cases rowFilled b 2 <;>
    cases colFilled b 0 <;> cases colFilled b 1 <;> cases colFilled b 2 <;>
    cases diagFilled b <;> cases antiDiagFilled b <;> rfl

/-- Placing `v` in a cell creates no filled line of another mark. -/
theorem hasLine_setCell (b : Board) (i j : Fin 3) (v m : String)
    (h : HasLine (setCell b i j v) m) : HasLine b m ∨ m = v := by
  obtain ⟨l, hl, hm, h1, h2, h3⟩ := h
  rw [setCell_apply] at h1 h2 h3
  by_cases e1 : l.1.1 = i ∧ l.1.2 = j
  · rw [if_pos e1] at h1
    exact Or.inr h1.symm
  · by_cases e2 : l.2.1.1 = i ∧ l.2.1.2 = j
    · rw [if_pos e2] at h2
      exact Or.inr h2.symm
    · by_cases e3 : l.2.2.1 = i ∧ l.2.2.2 = j
      · rw [if_pos e3] at h3
        exact Or.inr h3.symm
      · rw [if_neg e1] at h1
        rw [if_neg e2] at h2
        rw [if_neg e3] at h3
        exact Or.inl ⟨l, hl, hm, h1, h2, h3⟩

theorem checkWinner_emptyBoard : checkWinner emptyBoard = "" := by decide

/-- A reachable room that is not finished has no filled line. -/
theorem reachable_active_no_line {room : Room} (hr : Reachable room) :
    room.Status ≠ "finished" → checkWinner room.Board = "" := by
  induction hr with
  | fresh roomID opponent player =>
    intro _
    exact checkWinner_emptyBoard
  | @move room heap player msg _ ih =>
    by_cases hc : RejectCond heap player room msg
    · obtain ⟨text, ht⟩ := handleMove_of_rejectCond heap player room msg hc
      rw [ht]
      exact ih
    · have ha := (not_rejectCond_iff _ _ _ _).1 hc
      rw [handleMove_of_accepted heap player room msg ha]
      by_cases hw : checkWinner (placed heap player room msg) = ""
      · by_cases hf : isBoardFull (placed heap player room msg) = true
        · rw [settle_of_full room _ hw hf]
          intro h; exact absurd rfl h
        · rw [settle_of_open room _ hw hf]
          intro _; exact hw
      · rw [settle_of_winner room _ hw]
        intro h; exact absurd rfl h

/-- In a reachable room, a mover with a non-empty mark whose move is accepted finds
the room not finished. -/
theorem accepted_not_finished {room : Room} (hr : Reachable room)
    (heap : PlayerRef → Player) (player : PlayerRef) (msg : Message)
    (hacc : Accepted heap player room msg) (hsym : (heap player).Symbol ≠ "") :
    room.Status ≠ "finished" := by
  intro hf
  have ht := ((reachable_inv hr).finished hf).1
  exact hsym (hacc.1.symm.trans ht)

/-- After an accepted move of a mover with a non-empty mark in a reachable room,
every filled line holds the mover's mark. -/
theorem lines_hold_mover_mark {room : Room} (hr : Reachable room)
    (heap : PlayerRef → Player) (player : PlayerRef) (msg : Message)
    (hacc : Accepted heap player room msg) (hsym : (heap player).Symbol ≠ "")
    (m : String) (h : HasLine (placed heap player room msg) m) :
    m = (heap player).Symbol := by
  have hno := reachable_active_no_line hr (accepted_not_finished hr heap player msg hacc hsym)
  rcases hasLine_setCell _ _ _ _ _ h with h1 | h1
  · exact absurd hno ((checkWinner_ne_iff _).2 ⟨m, h1⟩)
  · exact h1

/-! ## Counting marks and lines -/

set_option maxRecDepth 100000 in
/-- With at most 5 true cells, at most 2 of the 8 lines are all true. -/
theorem boolBoard_lines_le : ∀ a0 a1 a2 a3 a4 a5 a6 a7 a8 : Bool,
    allCells.countP (fun c => boolBoard a0 a1 a2 a3 a4 a5 a6 a7 a8 c.1 c.2) ≤ 5 →
    lines.countP (lineTrue (boolBoard a0 a1 a2 a3 a4 a5 a6 a7 a8)) ≤ 2 := by
  decide

theorem eq_boolBoard (g : Fin 3 → Fin 3 → Bool) :
    g = boolBoard (g 0 0) (g 0 1) (g 0 2) (g 1 0) (g 1 1) (g 1 2) (g 2 0) (g 2 1) (g 2 2) := by
  funext i j
  fin_cases i <;> fin_cases j <;> rfl

theorem lines_le_of_count_le (g : Fin 3 → Fin 3 → Bool)
    (h : allCells.countP (fun c => g c.1 c.2) ≤ 5) : lines.countP (lineTrue g) ≤ 2 := by
  rw [eq_boolBoard g] at h ⊢
  exact boolBoard_lines_le _ _ _ _ _ _ _ _ _ h

theorem countP_flip {α : Type} (p q : α → Bool) (x : α) :
    ∀ l : List α, l.Nodup → x ∈ l → (∀ y, y ≠ x → q y = p y) → p x = false → q x = true →
      l.countP q = l.countP p + 1
  | [], _, hx, _, _, _ => by simp at hx
  | a :: t, hn, hx, hpq, hp, hq => by
    rw [List.nodup_cons] at hn
    by_cases e : a = x
    · have ht : t.countP q = t.countP p := by
        apply List.countP_congr
        intro y hy
        have : y ≠ x := fun h => hn.1 (e ▸ h ▸ hy)
        rw [hpq y this]
      rw [List.countP_cons, List.countP_cons, e, hp, hq, ht]
      simp
    · have hx2 : x ∈ t := by
        rcases List.mem_cons.1 hx with h | h
        · exact absurd h.symm e
        · exact h
      rw [List.countP_cons, List.countP_cons, hpq a e, countP_flip p q x t hn.2 hx2 hpq hp hq]
      omega

theorem countP_three_le {α : Type} (p q r : α → Bool)
    (h : ∀ y, (p y = true → q y = false ∧ r y = false) ∧ (q y = true → r y = false)) :
    ∀ l : List α, l.countP p + l.countP q + l.countP r ≤ l.length
  | [] => by simp
  | a :: t => by
    have ih := countP_three_le p q r h t
    have ha := h a
    rw [List.countP_cons, List.countP_cons, List.countP_cons, List.length_cons]
    cases hp : p a <;> cases hq : q a <;> cases hr : r a <;> simp [hp, hq, hr] at ha ⊢ <;> omega

theorem mem_allCells (c : Cell) : c ∈ allCells := by
  obtain ⟨i, j⟩ := c
  fin_cases i <;> fin_cases j <;> decide

theorem allCells_nodup : allCells.Nodup := by decide

theorem countMark_setCell_same (b : Board) (i j : Fin 3) (v : String) (h : b i j ≠ v) :
    countMark (setCell b i j v) v = countMark b v + 1 := by
  unfold countMark
  apply countP_flip _ _ (i, j) allCells allCells_nodup (mem_allCells _)
  · intro y hy
    have : ¬ (y.1 = i ∧ y.2 = j) := fun e => hy (Prod.ext e.1 e.2)
    rw [setCell_apply, if_neg this]
  · exact decide_eq_false h
  · rw [setCell_apply, if_pos ⟨rfl, rfl⟩]
    exact decide_eq_true rfl

theorem countMark_setCell_other (b : Board) (i j : Fin 3) (v m : String) (h : b i j ≠ m)
    (hv : v ≠ m) : countMark (setCell b i j v) m = countMark b m := by
  unfold countMark
  apply List.countP_congr
  intro y _
  rw [setCell_apply]
  by_cases e : y.1 = i ∧ y.2 = j
  · rw [if_pos e, e.1, e.2]
    simp [hv, h]
  · rw [if_neg e]

theorem countMark_sum_le (b : Board) (i j : Fin 3) (h : b i j = "") :
    countMark b "X" + countMark b "O" ≤ 8 := by
  have h3 := countP_three_le (fun c : Cell => decide (b c.1 c.2 = "X"))
    (fun c : Cell => decide (b c.1 c.2 = "O")) (fun c : Cell => decide (b c.1 c.2 = "")) (by
      intro y
      simp only [decide_eq_true_eq, decide_eq_false_iff_not]
      refine ⟨fun e => ?_, fun e => ?_⟩
      · rw [e]; exact ⟨by decide, by decide⟩
      · rw [e]; decide) allCells
  have hpos : 0 < allCells.countP (fun c : Cell => decide (b c.1 c.2 = "")) :=
    List.countP_pos_iff.2 ⟨(i, j), mem_allCells _, decide_eq_true h⟩
  have hlen : allCells.length = 9 := rfl
  unfold countMark
  omega

/-- Placing a mark on a board without filled line, on which that mark occurs at most
4 times, leaves at most two filled lines. -/
theorem countFilled_setCell_le (b : Board) (i j : Fin 3) (v : String)
    (hno : checkWinner b = "") (hcount : countMark b v ≤ 4) (hcell : b i j ≠ v) :
    countFilled (setCell b i j v) ≤ 2 := by
  have hle : lines.countP (lineFilled (setCell b i j v)) ≤
      lines.countP (lineTrue fun r c => decide (setCell b i j v r c = v)) := by
    apply List.countP_mono_left
    intro l hl hf
    have hline := (lineFilled_iff _ _).1 hf
    have hm : (setCell b i j v) l.1.1 l.1.2 = v := by
      rcases hasLine_setCell b i j v _ ⟨l, hl, hline⟩ with h1 | h1
      · exact absurd hno ((checkWinner_ne_iff _).2 ⟨_, h1⟩)
      · exact h1
    rw [hm] at hline
    obtain ⟨-, h1, h2, h3⟩ := hline
    simp only [lineTrue, h1, h2, h3, decide_True, Bool.and_self]
  have hc : allCells.countP (fun c => decide (setCell b i j v c.1 c.2 = v)) ≤ 5 := by
    have := countMark_setCell_same b i j v hcell
    unfold countMark at this hcount
    omega
  exact le_trans hle (lines_le_of_count_le _ hc)

theorem reachable_runMoves (heap : PlayerRef → Player) :
    ∀ (moves : List (PlayerRef × Message)) {room : Room},
      Reachable room → Reachable (runMoves heap room moves)
  | [], _, hr => hr
  | pm :: rest, _, hr => reachable_runMoves heap rest (Reachable.move heap pm.1 pm.2 hr)

theorem countFilled_emptyBoard : countFilled emptyBoard = 0 := by decide

theorem countMark_emptyBoard (m : String) (h : m ≠ "") : countMark emptyBoard m = 0 := by
  unfold countMark
  rw [List.countP_eq_zero]
  intro c _
  simp only [emptyBoard, decide_eq_true_eq]
  exact fun e => h e.symm

/-- Every reachable room satisfies the counting invariant. -/
theorem reachable_count {room : Room} (hr : Reachable room) : CountInv room := by
  induction hr with
  | fresh roomID opponent player =>
    refine ⟨?_, fun _ _ => ?_, fun _ h => ?_⟩
    · show countFilled emptyBoard ≤ 2
      rw [countFilled_emptyBoard]; exact Nat.zero_le _
    · show countMark emptyBoard "X" = countMark emptyBoard "O"
      rw [countMark_emptyBoard "X" (by decide), countMark_emptyBoard "O" (by decide)]
    · exact absurd (show "X" = "O" from h) (by decide)
  | @move room heap player msg hr ih =>
    by_cases hc : RejectCond heap player room msg
    · obtain ⟨text, ht⟩ := handleMove_of_rejectCond heap player room msg hc
      rw [ht]
      exact ih
    · have ha := (not_rejectCond_iff _ _ _ _).1 hc
      have inv := reachable_inv hr
      rw [handleMove_of_accepted heap player room msg ha]
      by_cases hfin : room.Status = "finished"
      · -- the mover's mark is the empty string: the board stays as it is
        have hsym : (heap player).Symbol = "" := ha.1.symm.trans (inv.finished hfin).1
        have hb : placed heap player room msg = room.Board := by
          unfold placed
          rw [hsym, ← ha.2.2]
          exact setCell_same _ _ _
        rw [hb]
        have hst : (settle room room.Board).Status = "finished" := by
          by_cases hw : checkWinner room.Board = ""
          · by_cases hf : isBoardFull room.Board = true
            · rw [settle_of_full room _ hw hf]
            · rw [settle_of_open room _ hw hf]
              exact hfin
          · rw [settle_of_winner room _ hw]
        refine ⟨?_, fun h => absurd hst h, fun h => absurd hst h⟩
        rw [settle_board]
        exact ih.lines_le
      · obtain ⟨-, hturn, -⟩ := inv.active hfin
        have hno := reachable_active_no_line hr hfin
        have hsum := countMark_sum_le room.Board _ _ ha.2.2
        have hsymne : (heap player).Symbol ≠ "" := by
          rw [← ha.1]
          rcases hturn with h | h <;> rw [h] <;> decide
        have hcell : room.Board (idx msg.Row) (idx msg.Col) ≠ (heap player).Symbol := by
          rw [ha.2.2]; exact fun e => hsymne e.symm
        have hcount : countMark room.Board (heap player).Symbol ≤ 4 := by
          rcases hturn with h | h
          · have := ih.turnX hfin h
            rw [← ha.1, h]; omega
          · have := ih.turnO hfin h
            rw [← ha.1, h]; omega
        have hlines : countFilled (placed heap player room msg) ≤ 2 :=
          countFilled_setCell_le _ _ _ _ hno hcount hcell
        by_cases hw : checkWinner (placed heap player room msg) = ""
        · by_cases hf : isBoardFull (placed heap player room msg) = true
          · rw [settle_of_full room _ hw hf]
            exact ⟨hlines, fun h => absurd rfl h, fun h => absurd rfl h⟩
          · rw [settle_of_open room _ hw hf]
            refine ⟨hlines, fun _ ht => ?_, fun _ ht => ?_⟩
            · -- the new turn is X, so O has just moved
              have hO : room.Turn = "O" := by
                rcases hturn with h | h
                · exfalso
                  have e : (if room.Turn = "X" then "O" else "X") = "X" := ht
                  rw [if_pos h] at e
                  revert e; decide
                · exact h
              have hs : (heap player).Symbol = "O" := ha.1.symm.trans hO
              show countMark (placed heap player room msg) "X" =
                countMark (placed heap player room msg) "O"
              unfold placed
              rw [hs] at hcell ⊢
              rw [countMark_setCell_same _ _ _ _ hcell,
                countMark_setCell_other _ _ _ _ "X" (by rw [ha.2.2]; decide) (by decide)]
              exact ih.turnO hfin hO
            · -- the new turn is O, so X has just moved
              have hX : room.Turn = "X" := by
                rcases hturn with h | h
                · exact h
                · exfalso
                  have e : (if room.Turn = "X" then "O" else "X") = "O" := ht
                  rw [if_neg (by rw [h]; decide)] at e
                  revert e; decide
              have hs : (heap player).Symbol = "X" := ha.1.symm.trans hX
              show countMark (placed heap player room msg) "X" =
                countMark (placed heap player room msg) "O" + 1
              unfold placed
              rw [hs] at hcell ⊢
              rw [countMark_setCell_same _ _ _ _ hcell,
                countMark_setCell_other _ _ _ _ "O" (by rw [ha.2.2]; decide) (by decide)]
              have := ih.turnX hfin hX
              omega
        · rw [settle_of_winner room _ hw]
          exact ⟨hlines, fun h => absurd rfl h, fun h => absurd rfl h⟩

/-- In a reachable room every filled line holds the recorded winner, and the room is
finished as soon as a line is filled. -/
theorem reachable_lines_winner {room : Room} (hr : Reachable room) :
    ∀ m, HasLine room.Board m → room.Status = "finished" ∧ m = room.Winner := by
  induction hr with
  | fresh roomID opponent player =>
    intro m h
    exact absurd checkWinner_emptyBoard ((checkWinner_ne_iff _).2 ⟨m, h⟩)
  | @move room heap player msg hr ih =>
    by_cases hc : RejectCond heap player room msg
    · obtain ⟨text, ht⟩ := handleMove_of_rejectCond heap player room msg hc
      rw [ht]
      exact ih
    · have ha := (not_rejectCond_iff _ _ _ _).1 hc
      rw [handleMove_of_accepted heap player room msg ha]
      by_cases hw : checkWinner (placed heap player room msg) = ""
      · intro m h
        rw [settle_board] at h
        exact absurd hw ((checkWinner_ne_iff _).2 ⟨m, h⟩)
      · rw [settle_of_winner room _ hw]
        intro m h
        refine ⟨rfl, ?_⟩
        have hline : HasLine (placed heap player room msg)
            (checkWinner (placed heap player room msg)) := by
          rcases hasLine_of_checkWinner_cases (placed heap player room msg) with ⟨h0, -⟩ | ⟨-, h1⟩
          · exact absurd h0 hw
          · exact h1
        show m = checkWinner (placed heap player room msg)
        have h' : HasLine (placed heap player room msg) m := h
        by_cases hsym : (heap player).Symbol = ""
        · have hb : placed heap player room msg = room.Board := by
            unfold placed
            rw [hsym, ← ha.2.2]
            exact setCell_same _ _ _
          rw [hb] at h' hline ⊢
          rw [(ih m h').2, (ih _ hline).2]
        · rw [lines_hold_mover_mark hr heap player msg ha hsym m h',
            lines_hold_mover_mark hr heap player msg ha hsym _ hline]

/-! ## Lemmas on lock steps -/

/-- Every call of `handleMessage` starts by locking `roomMutex`. -/
theorem handleMessageLocks_head (s : Server) (player : PlayerRef) (msg : Message) :
    ∃ tail, handleMessageLocks s player msg = LockStep.lock Mutex.roomMutex :: tail := by
  unfold handleMessageLocks
  cases s.rooms (s.heap player).RoomID with
  | none => exact ⟨_, rfl⟩
  | some room =>
    simp only
    split_ifs
    · exact ⟨_, rfl⟩
    · exact ⟨_, rfl⟩

/-- Whatever the rooms of the two players, once one goroutine has entered
`handleMessage` the other one waits at its entry. -/
theorem second_handler_waits (s : Server) (p q : PlayerRef) (mp mq : Message) :
    waits (schedule (startHandling s p q mp mq) false) true = true := by
  obtain ⟨t1, h1⟩ := handleMessageLocks_head s p mp
  obtain ⟨t2, h2⟩ := handleMessageLocks_head s q mq
  simp [waits, schedule, startHandling, h1, h2, Function.update]

/-! ## Lemmas on matchmaking and disconnects -/

theorem matchPlayer_nil (s : Server) (player : PlayerRef) (rnd : String)
    (hq : s.waitingQueue = []) :
    matchPlayer s player rnd =
      ({ s with waitingQueue := [player] }, [((s.heap player).Conn, waitingMessage)]) := by
  unfold matchPlayer
  rw [hq]
  rfl

theorem matchPlayer_cons (s : Server) (player opponent : PlayerRef) (rest : List PlayerRef)
    (rnd : String) (hq : s.waitingQueue = opponent :: rest) :
    matchPlayer s player rnd =
      ({ s with
          heap := Function.update
            (Function.update s.heap opponent
              { s.heap opponent with
                Symbol := "X", RoomID := generateRoomID (incrCounter s.roomCounter) rnd,
                IsReady := true })
            player
            { Function.update s.heap opponent
                { s.heap opponent with
                  Symbol := "X", RoomID := generateRoomID (incrCounter s.roomCounter) rnd,
                  IsReady := true } player with
              Symbol := "O", RoomID := generateRoomID (incrCounter s.roomCounter) rnd,
              IsReady := true },
          waitingQueue := rest,
          roomCounter := incrCounter s.roomCounter,
          rooms := Function.update s.rooms (generateRoomID (incrCounter s.roomCounter) rnd)
            (some (newRoom (generateRoomID (incrCounter s.roomCounter) rnd) opponent player)) },
       [((s.heap opponent).Conn,
          matchedMessage (s.heap opponent).ID (generateRoomID (incrCounter s.roomCounter) rnd)
            "X" (newRoom (generateRoomID (incrCounter s.roomCounter) rnd) opponent player)
            "Game started! You are X. Your turn."),
        ((s.heap player).Conn,
          matchedMessage (s.heap player).ID (generateRoomID (incrCounter s.roomCounter) rnd)
            "O" (newRoom (generateRoomID (incrCounter s.roomCounter) rnd) opponent player)
            "Game started! You are O. Waiting for X...")]) := by
  unfold matchPlayer
  rw [hq]
  by_cases h : player = opponent
  · subst h
    simp [Function.update_same]
  · simp [Function.update_same, Function.update_noteq h, Function.update_noteq (Ne.symm h)]

theorem handleMessage_of_no_room (s : Server) (player : PlayerRef) (msg : Message)
    (h : s.rooms (s.heap player).RoomID = none) :
    handleMessage s player msg = (s, [((s.heap player).Conn, errorMessage "Room not found")]) := by
  unfold handleMessage
  rw [h]

theorem removeFromQueue_eq_erase (heap : PlayerRef → Player) (player : PlayerRef) :
    ∀ queue : List PlayerRef,
      (∀ q ∈ queue, (heap q).ID = (heap player).ID → q = player) →
      removeFromQueue heap (heap player).ID queue = queue.erase player
  | [], _ => rfl
  | p :: rest, h => by
    unfold removeFromQueue
    by_cases hp : (heap p).ID = (heap player).ID
    · have e : p = player := h p (List.mem_cons_self _ _) hp
      rw [if_pos hp, e, List.erase_cons_head]
    · have ne : p ≠ player := fun e => hp (by rw [e])
      rw [if_neg hp, List.erase_cons_tail (by simpa using ne),
        removeFromQueue_eq_erase heap player rest
          (fun q hq => h q (List.mem_cons_of_mem _ hq))]

theorem mem_of_mem_removeFromQueue (heap : PlayerRef → Player) (id : String) :
    ∀ (queue : List PlayerRef) (q : PlayerRef), q ∈ removeFromQueue heap id queue → q ∈ queue
  | [], _, h => by simp [removeFromQueue] at h
  | p :: rest, q, h => by
    unfold removeFromQueue at h
    split_ifs at h
    · exact List.mem_cons_of_mem _ h
    · rcases List.mem_cons.1 h with h1 | h1
      · rw [h1]; exact List.mem_cons_self _ _
      · exact List.mem_cons_of_mem _ (mem_of_mem_removeFromQueue heap id rest q h1)

theorem stale_handleMessage {opp : PlayerRef} {rid : String} {c : Conn} {s : Server}
    (h : Stale opp rid c s) (player : PlayerRef) (msg : Message) :
    Stale opp rid c (handleMessage s player msg).1 := by
  unfold handleMessage
  cases hr : s.rooms (s.heap player).RoomID with
  | none => exact h
  | some room =>
    simp only
    split_ifs
    · have hne : rid ≠ (s.heap player).RoomID := by
        intro e
        rw [← e, h.noRoom] at hr
        exact Option.noConfusion hr
      exact ⟨by show Function.update s.rooms _ _ rid = none
                rw [Function.update_noteq hne]; exact h.noRoom,
        h.roomID, h.conn, h.notQueued⟩
    · exact h

theorem stale_handleDisconnect {opp : PlayerRef} {rid : String} {c : Conn} {s : Server}
    (h : Stale opp rid c s) (player : PlayerRef) :
    Stale opp rid c (handleDisconnect s player).1 := by
  have hq : opp ∉ removeFromQueue s.heap (s.heap player).ID s.waitingQueue :=
    fun hm => h.notQueued (mem_of_mem_removeFromQueue _ _ _ _ hm)
  have hrooms : Function.update s.rooms (s.heap player).RoomID none rid = none := by
    by_cases e : rid = (s.heap player).RoomID
    · rw [e, Function.update_same]
    · rw [Function.update_noteq e]; exact h.noRoom
  unfold handleDisconnect
  simp only
  split_ifs
  · cases s.rooms (s.heap player).RoomID with
    | none => exact ⟨h.noRoom, h.roomID, h.conn, hq⟩
    | some room => exact ⟨hrooms, h.roomID, h.conn, hq⟩
  · exact ⟨h.noRoom, h.roomID, h.conn, hq⟩

theorem stale_matchPlayer {opp : PlayerRef} {rid : String} {c : Conn} {s : Server}
    (h : Stale opp rid c s) (player : PlayerRef) (rnd : String) (hp : player ≠ opp)
    (hrnd : generateRoomID 0 rnd ≠ rid) : Stale opp rid c (matchPlayer s player rnd).1 := by
  cases hq : s.waitingQueue with
  | nil =>
    rw [matchPlayer_nil s player rnd hq]
    refine ⟨h.noRoom, h.roomID, h.conn, ?_⟩
    show opp ∉ [player]
    rw [List.mem_singleton]
    exact fun e => hp e.symm
  | cons head rest =>
    have hnq := h.notQueued
    rw [hq] at hnq
    have hhead : opp ≠ head := fun e => hnq (e ▸ List.mem_cons_self _ _)
    have hheap : (matchPlayer s player rnd).1.heap opp = s.heap opp := by
      rw [matchPlayer_cons s player head rest rnd hq]
      show Function.update (Function.update s.heap head _) player _ opp = _
      rw [Function.update_noteq (Ne.symm hp), Function.update_noteq hhead]
    refine ⟨?_, by rw [hheap]; exact h.roomID, by rw [hheap]; exact h.conn, ?_⟩
    · rw [matchPlayer_cons s player head rest rnd hq]
      show Function.update s.rooms (generateRoomID (incrCounter s.roomCounter) rnd) _ rid = none
      have hne : rid ≠ generateRoomID (incrCounter s.roomCounter) rnd := fun e => hrnd e.symm
      rw [Function.update_noteq hne]
      exact h.noRoom
    · rw [matchPlayer_cons s player head rest rnd hq]
      exact fun hm => hnq (List.mem_cons_of_mem _ hm)

theorem stale_handleWebSocket {opp : PlayerRef} {rid : String} {c : Conn} {s : Server}
    (h : Stale opp rid c s) (ref : PlayerRef) (conn : Conn) (rndID rndRoom : String)
    (hp : ref ≠ opp) (hrnd : generateRoomID 0 rndRoom ≠ rid) :
    Stale opp rid c (handleWebSocket s ref conn rndID rndRoom).1 := by
  unfold handleWebSocket
  apply stale_matchPlayer _ ref rndRoom hp hrnd
  refine ⟨h.noRoom, ?_, ?_, h.notQueued⟩
  · show (Function.update s.heap ref _ opp).RoomID = rid
    rw [Function.update_noteq (Ne.symm hp)]; exact h.roomID
  · show (Function.update s.heap ref _ opp).Conn = c
    rw [Function.update_noteq (Ne.symm hp)]; exact h.conn

theorem stale_runEvents {opp : PlayerRef} {rid : String} {c : Conn} :
    ∀ (events : List Event) {s : Server}, Stale opp rid c s →
      (∀ e ∈ events, laterEvent opp rid e) → Stale opp rid c (runEvents s events)
  | [], _, h, _ => h
  | e :: rest, s, h, hl => by
    have hrest : ∀ x ∈ rest, laterEvent opp rid x := fun x hx => hl x (List.mem_cons_of_mem _ hx)
    have he := hl e (List.mem_cons_self _ _)
    cases e with
    | connect ref conn rndID rndRoom =>
      exact stale_runEvents rest (stale_handleWebSocket h ref conn rndID rndRoom he.1 he.2) hrest
    | message player msg =>
      exact stale_runEvents rest (stale_handleMessage h player msg) hrest
    | disconnect player =>
      exact stale_runEvents rest (stale_handleDisconnect h player) hrest

/-! ## The move handler -/

/-- C1: a move request given to `handleMove` is rejected (one `error` message, to the
requesting player only, no `update` to anyone, board, turn, status and winner
unchanged) if and only if the mover's mark differs from the current turn, or row or
col lies outside `0..2`, or the target cell is non-empty; a rejected request leaves
the whole room as it was; in every other case the move is accepted: the messages sent
are exactly one `update` per seated player, in seating order, so one to each of the
two seated players. -/
theorem handleMove_rejected_iff (heap : PlayerRef → Player) (player : PlayerRef)
    (room : Room) (msg : Message) :
    (Rejected heap player room msg ↔ RejectCond heap player room msg) ∧
    (RejectCond heap player room msg → (handleMove heap player room msg).1 = room) ∧
    (¬ RejectCond heap player room msg →
      (handleMove heap player room msg).2 =
          (handleMove heap player room msg).1.Players.map
            (fun p => ((heap p).Conn,
              updateMessage (handleMove heap player room msg).1 (heap p).Symbol)) ∧
      (handleMove heap player room msg).1.Players = room.Players ∧
      (∀ s ∈ (handleMove heap player room msg).2, s.2.Type_ = "update") ∧
      (∀ a b, room.Players = [a, b] →
        (handleMove heap player room msg).2 =
          [((heap a).Conn, updateMessage (handleMove heap player room msg).1 (heap a).Symbol),
           ((heap b).Conn,
              updateMessage (handleMove heap player room msg).1 (heap b).Symbol)])) := by
  have acc : ¬ RejectCond heap player room msg →
      (handleMove heap player room msg).2 =
          (handleMove heap player room msg).1.Players.map
            (fun p => ((heap p).Conn,
              updateMessage (handleMove heap player room msg).1 (heap p).Symbol)) ∧
      (handleMove heap player room msg).1.Players = room.Players := by
    intro hn
    rw [handleMove_of_accepted heap player room msg ((not_rejectCond_iff _ _ _ _).1 hn)]
    exact ⟨rfl, settle_players _ _⟩
  refine ⟨⟨?_, ?_⟩, ?_, ?_⟩
  · rintro ⟨⟨text, ht⟩, -, -⟩
    by_contra hn
    obtain ⟨h2, h1⟩ := acc hn
    rw [h2] at ht
    cases hp : (handleMove heap player room msg).1.Players with
    | nil => rw [hp] at ht; simp at ht
    | cons a rest =>
      rw [hp] at ht
      simp only [List.map_cons, List.cons.injEq, Prod.mk.injEq] at ht
      have := congrArg Message.Type_ ht.1.2
      simp [updateMessage, errorMessage] at this
  · intro h
    obtain ⟨text, ht⟩ := handleMove_of_rejectCond heap player room msg h
    rw [Rejected, ht]
    refine ⟨⟨text, rfl⟩, ?_, rfl, rfl, rfl, rfl⟩
    intro s hs
    simp only [List.mem_singleton] at hs
    subst hs
    simp [errorMessage]
  · intro h
    obtain ⟨text, ht⟩ := handleMove_of_rejectCond heap player room msg h
    rw [ht]
  · intro hn
    obtain ⟨h2, h1⟩ := acc hn
    refine ⟨h2, h1, ?_, ?_⟩
    · intro s hs
      rw [h2] at hs
      simp only [List.mem_map] at hs
      obtain ⟨p, -, rfl⟩ := hs
      rfl
    · intro a b hab
      rw [h2, h1, hab]
      rfl

/-- C2: after an accepted move the board is the old board with the mover's mark
placed; if that board has a line of three equal non-empty marks, then status is
finished, the winner is the mark of such a line (the one `checkWinner` finds) and the
turn is cleared, whether or not the board is now full; otherwise, if all 9 cells are
filled, status is finished, winner is `draw` and the turn is cleared; otherwise status
and winner are unchanged and the turn passes from X to O and from O to X. -/
theorem handleMove_accepted_state (heap : PlayerRef → Player) (player : PlayerRef)
    (room : Room) (msg : Message) (h : Accepted heap player room msg) :
    (handleMove heap player room msg).1.Board = placed heap player room msg ∧
    ((∃ m, HasLine (placed heap player room msg) m) →
      (handleMove heap player room msg).1.Status = "finished" ∧
      HasLine (placed heap player room msg) (handleMove heap player room msg).1.Winner ∧
      (handleMove heap player room msg).1.Winner = checkWinner (placed heap player room msg) ∧
      (handleMove heap player room msg).1.Turn = "") ∧
    ((¬ ∃ m, HasLine (placed heap player room msg) m) → Full (placed heap player room msg) →
      (handleMove heap player room msg).1.Status = "finished" ∧
      (handleMove heap player room msg).1.Winner = "draw" ∧
      (handleMove heap player room msg).1.Turn = "") ∧
    ((¬ ∃ m, HasLine (placed heap player room msg) m) → ¬ Full (placed heap player room msg) →
      (handleMove heap player room msg).1.Status = room.Status ∧
      (handleMove heap player room msg).1.Winner = room.Winner ∧
      (room.Turn = "X" → (handleMove heap player room msg).1.Turn = "O") ∧
      (room.Turn = "O" → (handleMove heap player room msg).1.Turn = "X")) := by
  rw [handleMove_of_accepted heap player room msg h]
  refine ⟨settle_board _ _, ?_, ?_, ?_⟩
  · intro hl
    have hw := (checkWinner_ne_iff _).2 hl
    have hline : HasLine (placed heap player room msg)
        (checkWinner (placed heap player room msg)) := by
      rcases hasLine_of_checkWinner_cases (placed heap player room msg) with ⟨h0, -⟩ | ⟨-, h1⟩
      · exact absurd h0 hw
      · exact h1
    rw [settle_of_winner room _ hw]
    exact ⟨rfl, hline, rfl, rfl⟩
  · intro hl hf
    have hw : checkWinner (placed heap player room msg) = "" :=
      not_not.1 fun hw => hl ((checkWinner_ne_iff _).1 hw)
    rw [settle_of_full room _ hw ((isBoardFull_iff _).2 hf)]
    exact ⟨rfl, rfl, rfl⟩
  · intro hl hf
    have hw : checkWinner (placed heap player room msg) = "" :=
      not_not.1 fun hw => hl ((checkWinner_ne_iff _).1 hw)
    have hfull : ¬ isBoardFull (placed heap player room msg) = true :=
      fun hb => hf ((isBoardFull_iff _).1 hb)
    rw [settle_of_open room _ hw hfull]
    refine ⟨rfl, rfl, ?_, ?_⟩
    · intro hx; simp [hx]
    · intro ho; simp [ho]

/-- C3: `checkWinner` returns a non-empty mark if and only if one of the 8 lines holds
three equal non-empty cells, and the mark returned then fills such a line; a board
whose cells (0,0), (0,1), (0,2) all hold the mark `A` gives winner `A`; a board with no
such line gives the empty result. -/
theorem checkWinner_detects_lines (board : Board) :
    (checkWinner board ≠ "" ↔ ∃ m, HasLine board m) ∧
    (checkWinner board ≠ "" → HasLine board (checkWinner board)) ∧
    (∀ A : String, A ≠ "" → board 0 0 = A → board 0 1 = A → board 0 2 = A →
      checkWinner board = A) ∧
    ((¬ ∃ m, HasLine board m) → checkWinner board = "") := by
  refine ⟨checkWinner_ne_iff board, ?_, ?_, ?_⟩
  · intro hw
    rcases hasLine_of_checkWinner_cases board with ⟨h0, -⟩ | ⟨-, h1⟩
    · exact absurd h0 hw
    · exact h1
  · intro A hA h0 h1 h2
    have r0 : rowFilled board 0 = true := by
      simp only [rowFilled, decide_eq_true_eq]
      exact ⟨h0 ▸ hA, h0.trans h1.symm, h1.trans h2.symm⟩
    simp only [checkWinner, List.find?, r0]
    exact h0
  · intro hn
    by_contra hw
    exact hn ((checkWinner_ne_iff board).1 hw)

/-- C4: in a room reachable from a freshly created match by `handleMove` calls, once
the status is finished every further move request of a player whose mark is X or O,
for any row and col, is answered with the error "Not your turn" to that player alone,
sends no update and leaves the room (board, turn, status, winner) as it was; and in
every run of such requests from a reachable room the status changes from not finished
to finished at most once. -/
theorem finished_is_final (heap : PlayerRef → Player) (room : Room) (hr : Reachable room) :
    (room.Status = "finished" →
      ∀ (player : PlayerRef) (msg : Message),
        (heap player).Symbol = "X" ∨ (heap player).Symbol = "O" →
        handleMove heap player room msg =
          (room, [((heap player).Conn, errorMessage "Not your turn")])) ∧
    (∀ moves : List (PlayerRef × Message),
      (∀ pm ∈ moves, (heap pm.1).Symbol = "X" ∨ (heap pm.1).Symbol = "O") →
      finishCount heap room moves ≤ 1) :=
  ⟨fun hf player msg hsym => handleMove_finished hr hf heap player msg hsym,
   fun moves hm => finishCount_le_one heap moves hm hr⟩

/-- Witness for C2: the first move X (0,0) of a new match is accepted. -/
theorem handleMove_accepted_state_witness :
    Accepted heapXO 1 (newRoom "room_r2" 1 2) (moveRequest 0 0) ∧
    (handleMove heapXO 1 (newRoom "room_r2" 1 2) (moveRequest 0 0)).1.Board =
      placed heapXO 1 (newRoom "room_r2" 1 2) (moveRequest 0 0) :=
  ⟨by unfold Accepted; decide,
   (handleMove_accepted_state heapXO 1 (newRoom "room_r2" 1 2) (moveRequest 0 0)
      (by unfold Accepted; decide)).1⟩

/-- Witness for C4: after X has won row 0, a request of O for the free cell (2,2) is
answered with the turn error and changes nothing. -/
theorem finished_is_final_witness :
    roomXWon.Status = "finished" ∧
    handleMove heapXO 2 roomXWon (moveRequest 2 2) =
      (roomXWon, [((heapXO 2).Conn, errorMessage "Not your turn")]) :=
  ⟨by decide,
   (finished_is_final heapXO roomXWon
      (Reachable.move heapXO 1 (moveRequest 0 2) (Reachable.move heapXO 2 (moveRequest 1 1)
        (Reachable.move heapXO 1 (moveRequest 0 1) (Reachable.move heapXO 2 (moveRequest 1 0)
          (Reachable.move heapXO 1 (moveRequest 0 0) (Reachable.fresh "room_r2" 1 2))))))).1
      (by decide) 2 (moveRequest 2 2) (Or.inr (by decide))⟩

/-! ## Matchmaking -/

/-- C5: when the waiting queue is `opponent :: rest`, `matchPlayer player` leaves `rest`
as the queue, inserts into the registry, under the new room id, the room seating
`[opponent, player]` with an all-empty board, turn X, status playing and no winner,
gives `player` the mark O and both players the new room id, gives `opponent` the mark
X (the arriving player being another object than the queue head, as it is for the
newly created player `matchPlayer` is called on), and sends two `matched` notices: to
`opponent` with its own id, the room id, mark X, the board, the turn and the status,
then to `player` likewise with mark O. -/
theorem matchPlayer_pairs_head (s : Server) (player opponent : PlayerRef)
    (rest : List PlayerRef) (rnd : String)
    (hq : s.waitingQueue = opponent :: rest) :
    (matchPlayer s player rnd).1.waitingQueue = rest ∧
    (matchPlayer s player rnd).1.rooms =
      Function.update s.rooms (generateRoomID (incrCounter s.roomCounter) rnd)
        (some { ID := generateRoomID (incrCounter s.roomCounter) rnd,
                Players := [opponent, player], Board := fun _ _ => "",
                Turn := "X", Status := "playing", Winner := "" }) ∧
    (player ≠ opponent → ((matchPlayer s player rnd).1.heap opponent).Symbol = "X") ∧
    ((matchPlayer s player rnd).1.heap opponent).RoomID =
      generateRoomID (incrCounter s.roomCounter) rnd ∧
    ((matchPlayer s player rnd).1.heap player).Symbol = "O" ∧
    ((matchPlayer s player rnd).1.heap player).RoomID =
      generateRoomID (incrCounter s.roomCounter) rnd ∧
    (matchPlayer s player rnd).2 =
      [((s.heap opponent).Conn,
          { Type_ := "matched", PlayerID := (s.heap opponent).ID,
            RoomID := generateRoomID (incrCounter s.roomCounter) rnd, Symbol := "X",
            Board := fun _ _ => "", Turn := "X", Status := "playing",
            Message := "Game started! You are X. Your turn." }),
       ((s.heap player).Conn,
          { Type_ := "matched", PlayerID := (s.heap player).ID,
            RoomID := generateRoomID (incrCounter s.roomCounter) rnd, Symbol := "O",
            Board := fun _ _ => "", Turn := "X", Status := "playing",
            Message := "Game started! You are O. Waiting for X..." })] := by
  rw [matchPlayer_cons s player opponent rest rnd hq]
  refine ⟨rfl, rfl, ?_, ?_, ?_, ?_, rfl⟩
  · intro hne
    simp [Function.update_noteq (Ne.symm hne)]
  · by_cases hne : player = opponent
    · subst hne; simp
    · simp [Function.update_noteq (Ne.symm hne)]
  · simp
  · simp

/-- Witness for C5: a second player arrives while the first one waits. -/
theorem matchPlayer_pairs_head_witness :
    (serverOne.waitingQueue = [1] ∧ (2 : PlayerRef) ≠ 1) ∧
    ((matchPlayer serverOne 2 "r2").1.waitingQueue = [] ∧
      ((matchPlayer serverOne 2 "r2").1.heap 1).Symbol = "X") :=
  ⟨⟨by decide, by decide⟩,
   (matchPlayer_pairs_head serverOne 2 1 [] "r2" (by decide)).1,
   (matchPlayer_pairs_head serverOne 2 1 [] "r2" (by decide)).2.2.1 (by decide)⟩

/-- C7, as stated, fails: players 1 and 2 have connected, have drawn the same player
id and are seated together in room `room_r2` of the registry; when player 1
disconnects, `handleDisconnect` sends no message at all, so player 2 gets no
`opponent_disconnected` notice. -/
theorem same_id_opponent_not_notified :
    (serverSameID.heap 1).ID = (serverSameID.heap 2).ID ∧
    (serverSameID.heap 1).RoomID = "room_r2" ∧ (serverSameID.heap 2).RoomID = "room_r2" ∧
    (serverSameID.rooms "room_r2").map (fun r => r.Players) = some [1, 2] ∧
    (handleDisconnect serverSameID 1).2 = [] ∧
    ¬ (∃ m : Message, ((serverSameID.heap 2).Conn, m) ∈ (handleDisconnect serverSameID 1).2) := by
  have h : (handleDisconnect serverSameID 1).2 = [] :=
    List.eq_nil_of_length_eq_zero (by decide)
  refine ⟨by decide, by decide, by decide, by decide, h, ?_⟩
  rintro ⟨m, hm⟩
  rw [h] at hm
  exact absurd hm (List.not_mem_nil _)

/-- C7, amended: when `player` holds the id of a room of the registry that seats
`player` and `opponent`, `opponent` holds the same room id and is not queued, and the
two have different player ids, `handleDisconnect player` sends exactly one message,
the `opponent_disconnected` notice, to `opponent`, removes that room and no other from
the registry and removes `player` from the player table; afterwards, through any later
events (connections of new players that do not draw the removed room id, messages and
disconnects of any player), every message of `opponent` given to `handleMessage` is
answered, to `opponent` alone, with the error "Room not found" and changes no state. -/
theorem handleDisconnect_seated (s : Server) (player opponent : PlayerRef) (room : Room)
    (hid : (s.heap player).RoomID ≠ "")
    (hroom : s.rooms (s.heap player).RoomID = some room)
    (hseat : room.Players = [player, opponent] ∨ room.Players = [opponent, player])
    (hopp : (s.heap opponent).RoomID = (s.heap player).RoomID)
    (hnq : opponent ∉ s.waitingQueue)
    (huniq : (s.heap opponent).ID ≠ (s.heap player).ID) :
    (handleDisconnect s player).2 =
      [((s.heap opponent).Conn,
        { Type_ := "opponent_disconnected", Message := "Opponent disconnected" })] ∧
    (handleDisconnect s player).1.rooms = Function.update s.rooms (s.heap player).RoomID none ∧
    (handleDisconnect s player).1.players = Function.update s.players (s.heap player).ID none ∧
    (∀ events : List Event,
      (∀ e ∈ events, laterEvent opponent (s.heap player).RoomID e) →
      ∀ msg : Message,
        handleMessage (runEvents (handleDisconnect s player).1 events) opponent msg =
          (runEvents (handleDisconnect s player).1 events,
            [((s.heap opponent).Conn, { Type_ := "error", Error := "Room not found" })])) := by
  have e : handleDisconnect s player =
      ({ s with players := Function.update s.players (s.heap player).ID none,
                waitingQueue := removeFromQueue s.heap (s.heap player).ID s.waitingQueue,
                rooms := Function.update s.rooms (s.heap player).RoomID none },
        (room.Players.filter fun p => decide ((s.heap p).ID ≠ (s.heap player).ID)).map
          fun p => ((s.heap p).Conn, opponentDisconnectedMessage)) := by
    unfold handleDisconnect
    simp only [hid, ne_eq, not_false_eq_true, if_true, hroom]
  have hstale : Stale opponent (s.heap player).RoomID (s.heap opponent).Conn
      (handleDisconnect s player).1 := by
    rw [e]
    exact ⟨by show Function.update s.rooms _ none _ = none
              rw [Function.update_same],
      hopp, rfl, fun hm => hnq (mem_of_mem_removeFromQueue _ _ _ _ hm)⟩
  refine ⟨?_, by rw [e], by rw [e], ?_⟩
  · rw [e]
    rcases hseat with h | h <;> rw [h] <;>
      simp [List.filter, huniq, opponentDisconnectedMessage]
  · intro events hev msg
    have st := stale_runEvents events hstale hev
    have h1 := handleMessage_of_no_room (runEvents (handleDisconnect s player).1 events)
      opponent msg (by rw [st.roomID]; exact st.noRoom)
    rw [h1, st.conn]
    rfl

/-- Witness for C7, amended: player 1 disconnects from the match with player 2; later
a third player connects and player 2 asks for a move. -/
theorem handleDisconnect_seated_witness :
    ((serverTwo.heap 1).RoomID ≠ "" ∧
      serverTwo.rooms (serverTwo.heap 1).RoomID = some (newRoom "room_r2" 1 2) ∧
      (newRoom "room_r2" 1 2).Players = [1, 2] ∧
      (serverTwo.heap 2).RoomID = (serverTwo.heap 1).RoomID ∧
      (2 : PlayerRef) ∉ serverTwo.waitingQueue ∧
      (serverTwo.heap 2).ID ≠ (serverTwo.heap 1).ID ∧
      laterEvent 2 (serverTwo.heap 1).RoomID (Event.connect 3 103 "cccccccc" "r3")) ∧
    (handleDisconnect serverTwo 1).2 =
      [((serverTwo.heap 2).Conn,
        { Type_ := "opponent_disconnected", Message := "Opponent disconnected" })] ∧
    handleMessage
        (runEvents (handleDisconnect serverTwo 1).1 [Event.connect 3 103 "cccccccc" "r3"])
        2 (moveRequest 0 0) =
      (runEvents (handleDisconnect serverTwo 1).1 [Event.connect 3 103 "cccccccc" "r3"],
        [((serverTwo.heap 2).Conn, { Type_ := "error", Error := "Room not found" })]) :=
  ⟨⟨by decide, rfl, rfl, by decide, by decide, by decide, by unfold laterEvent; decide⟩,
   (handleDisconnect_seated serverTwo 1 2 (newRoom "room_r2" 1 2) (by decide) rfl
      (Or.inl rfl) (by decide) (by decide) (by decide)).1,
   (handleDisconnect_seated serverTwo 1 2 (newRoom "room_r2" 1 2) (by decide) rfl
      (Or.inl rfl) (by decide) (by decide) (by decide)).2.2.2
      [Event.connect 3 103 "cccccccc" "r3"]
      (by
        intro e he
        rw [List.mem_singleton] at he
        rw [he]
        unfold laterEvent
        decide)
      (moveRequest 0 0)⟩

/-- C8: when `player` is in the waiting queue, holds no room id of the registry, and
no other queued player has its identity, `handleDisconnect player` leaves the queue
with exactly that player removed (one entry fewer, the others kept, in order), leaves the registry and
every player object (mark, room id) unchanged, sends no message, and `player` still
holds no room id of the registry. -/
theorem handleDisconnect_queued (s : Server) (player : PlayerRef)
    (hq : player ∈ s.waitingQueue)
    (hno : (s.heap player).RoomID = "" ∨ s.rooms (s.heap player).RoomID = none)
    (huniq : ∀ q ∈ s.waitingQueue, (s.heap q).ID = (s.heap player).ID → q = player) :
    (handleDisconnect s player).1.waitingQueue = s.waitingQueue.erase player ∧
    (handleDisconnect s player).1.waitingQueue.length + 1 = s.waitingQueue.length ∧
    (∀ q, q ≠ player →
      (q ∈ (handleDisconnect s player).1.waitingQueue ↔ q ∈ s.waitingQueue)) ∧
    (handleDisconnect s player).1.rooms = s.rooms ∧
    (handleDisconnect s player).1.heap = s.heap ∧
    (handleDisconnect s player).2 = [] ∧
    (((handleDisconnect s player).1.heap player).RoomID = "" ∨
      (handleDisconnect s player).1.rooms
        ((handleDisconnect s player).1.heap player).RoomID = none) := by
  have e : handleDisconnect s player =
      ({ s with players := Function.update s.players (s.heap player).ID none,
                waitingQueue := s.waitingQueue.erase player }, []) := by
    unfold handleDisconnect
    rw [removeFromQueue_eq_erase s.heap player s.waitingQueue huniq]
    rcases hno with h | h
    · simp only [h, ne_eq, not_true_eq_false, if_false]
    · by_cases h0 : (s.heap player).RoomID = ""
      · simp only [h0, ne_eq, not_true_eq_false, if_false]
      · simp only [h0, ne_eq, not_false_eq_true, if_true, h]
  rw [e]
  refine ⟨rfl, ?_, ?_, rfl, rfl, rfl, hno⟩
  · show (s.waitingQueue.erase player).length + 1 = s.waitingQueue.length
    rw [List.length_erase_of_mem hq]
    have := List.length_pos_of_mem hq
    omega
  intro q hne
  exact ⟨fun h => List.mem_of_mem_erase h, fun h => (List.mem_erase_of_ne hne).2 h⟩

/-- Witness for C8: the only queued player disconnects. -/
theorem handleDisconnect_queued_witness :
    ((1 : PlayerRef) ∈ serverOne.waitingQueue ∧ (serverOne.heap 1).RoomID = "" ∧
      (∀ q ∈ serverOne.waitingQueue, (serverOne.heap q).ID = (serverOne.heap 1).ID → q = 1)) ∧
    (handleDisconnect serverOne 1).1.waitingQueue = serverOne.waitingQueue.erase 1 :=
  ⟨⟨by decide, by decide, by decide⟩,
   (handleDisconnect_queued serverOne 1 (by decide) (Or.inl (by decide))
      (by decide)).1⟩

/-! ## The update broadcast -/

/-- C10: after an accepted move in a room seating `[a, b]`, with `r` the room after the
move, exactly two messages are sent, one `update` to `a` and one to `b`, each carrying
the board, turn and winner of `r` and the recipient's own text; the text for a
recipient with mark `sym` is "Game ended in a draw!" if `r` is finished with winner
draw, "You won!" if finished with winner `sym`, "You lost!" if finished with another
winner, "Your turn" if `r` is not finished and its turn is `sym`, and "Opponent's turn"
otherwise. When the room is reachable and `a`, `b` hold X and O, a finish that is not
a draw gives "You won!" to exactly one of the two and "You lost!" to the other, and a
room still active gives "Your turn" to exactly one of them and "Opponent's turn" to the
other. -/
theorem handleMove_update_texts (heap : PlayerRef → Player) (player a b : PlayerRef)
    (room r : Room) (msg : Message)
    (hacc : Accepted heap player room msg) (hseat : room.Players = [a, b])
    (hr : r = (handleMove heap player room msg).1) :
    (handleMove heap player room msg).2 =
      [((heap a).Conn,
          { Type_ := "update", Board := r.Board, Turn := r.Turn, Winner := r.Winner,
            Status := statusMsg r (heap a).Symbol, Message := statusMsg r (heap a).Symbol }),
       ((heap b).Conn,
          { Type_ := "update", Board := r.Board, Turn := r.Turn, Winner := r.Winner,
            Status := statusMsg r (heap b).Symbol, Message := statusMsg r (heap b).Symbol })] ∧
    r.Board = placed heap player room msg ∧
    (∀ sym : String,
      (r.Status = "finished" → r.Winner = "draw" → statusMsg r sym = "Game ended in a draw!") ∧
      (r.Status = "finished" → r.Winner ≠ "draw" → r.Winner = sym →
        statusMsg r sym = "You won!") ∧
      (r.Status = "finished" → r.Winner ≠ "draw" → r.Winner ≠ sym →
        statusMsg r sym = "You lost!") ∧
      (r.Status ≠ "finished" → r.Turn = sym → statusMsg r sym = "Your turn") ∧
      (r.Status ≠ "finished" → r.Turn ≠ sym → statusMsg r sym = "Opponent's turn")) ∧
    (Reachable room → (heap a).Symbol = "X" → (heap b).Symbol = "O" →
      (r.Status = "finished" → r.Winner ≠ "draw" →
        (statusMsg r (heap a).Symbol = "You won!" ∧ statusMsg r (heap b).Symbol = "You lost!") ∨
        (statusMsg r (heap a).Symbol = "You lost!" ∧ statusMsg r (heap b).Symbol = "You won!")) ∧
      (r.Status ≠ "finished" →
        (statusMsg r (heap a).Symbol = "Your turn" ∧
          statusMsg r (heap b).Symbol = "Opponent's turn") ∨
        (statusMsg r (heap a).Symbol = "Opponent's turn" ∧
          statusMsg r (heap b).Symbol = "Your turn"))) := by
  have hr1 : r = settle room (placed heap player room msg) := by
    rw [hr, handleMove_of_accepted heap player room msg hacc]
  have texts : ∀ sym : String,
      (r.Status = "finished" → r.Winner = "draw" → statusMsg r sym = "Game ended in a draw!") ∧
      (r.Status = "finished" → r.Winner ≠ "draw" → r.Winner = sym →
        statusMsg r sym = "You won!") ∧
      (r.Status = "finished" → r.Winner ≠ "draw" → r.Winner ≠ sym →
        statusMsg r sym = "You lost!") ∧
      (r.Status ≠ "finished" → r.Turn = sym → statusMsg r sym = "Your turn") ∧
      (r.Status ≠ "finished" → r.Turn ≠ sym → statusMsg r sym = "Opponent's turn") := by
    intro sym
    refine ⟨?_, ?_, ?_, ?_, ?_⟩
    · intro h1 h2; unfold statusMsg; rw [if_pos h1, if_pos h2]
    · intro h1 h2 h3; unfold statusMsg; rw [if_pos h1, if_neg h2, if_pos h3]
    · intro h1 h2 h3; unfold statusMsg; rw [if_pos h1, if_neg h2, if_neg h3]
    · intro h1 h2; unfold statusMsg; rw [if_neg h1, if_pos h2]
    · intro h1 h2; unfold statusMsg; rw [if_neg h1, if_neg h2]
  refine ⟨?_, ?_, texts, ?_⟩
  · rw [handleMove_of_accepted heap player room msg hacc, ← hr1]
    have hp : r.Players = [a, b] := by rw [hr1, settle_players, hseat]
    unfold broadcast
    rw [hp]
    rfl
  · rw [hr1, settle_board]
  · intro hreach ha hb
    have inv : RoomInv r := by
      rw [hr]
      exact reachable_inv (Reachable.move heap player msg hreach)
    rw [ha, hb]
    constructor
    · intro hf hd
      rcases (inv.finished hf).2.1 with h | h | h
      · exact absurd h hd
      · exact Or.inl ⟨(texts "X").2.1 hf hd h,
          (texts "O").2.2.1 hf hd (by rw [h]; decide)⟩
      · exact Or.inr ⟨(texts "X").2.2.1 hf hd (by rw [h]; decide),
          (texts "O").2.1 hf hd h⟩
    · intro hf
      rcases (inv.active hf).2.1 with h | h
      · exact Or.inl ⟨(texts "X").2.2.2.1 hf h,
          (texts "O").2.2.2.2 hf (by rw [h]; decide)⟩
      · exact Or.inr ⟨(texts "X").2.2.2.2 hf (by rw [h]; decide),
          (texts "O").2.2.2.1 hf h⟩

/-- Witness for C10: the first move X (0,0) of a new match seating players 1 (X) and
2 (O); the match stays active, so one of the two is told "Your turn". -/
theorem handleMove_update_texts_witness :
    (Accepted heapXO 1 (newRoom "room_r2" 1 2) (moveRequest 0 0) ∧
      (newRoom "room_r2" 1 2).Players = [1, 2] ∧
      (heapXO 1).Symbol = "X" ∧ (heapXO 2).Symbol = "O" ∧
      (handleMove heapXO 1 (newRoom "room_r2" 1 2) (moveRequest 0 0)).1.Status ≠ "finished") ∧
    ((statusMsg (handleMove heapXO 1 (newRoom "room_r2" 1 2) (moveRequest 0 0)).1
          (heapXO 1).Symbol = "Your turn" ∧
        statusMsg (handleMove heapXO 1 (newRoom "room_r2" 1 2) (moveRequest 0 0)).1
          (heapXO 2).Symbol = "Opponent's turn") ∨
      (statusMsg (handleMove heapXO 1 (newRoom "room_r2" 1 2) (moveRequest 0 0)).1
          (heapXO 1).Symbol = "Opponent's turn" ∧
        statusMsg (handleMove heapXO 1 (newRoom "room_r2" 1 2) (moveRequest 0 0)).1
          (heapXO 2).Symbol = "Your turn")) :=
  ⟨⟨by unfold Accepted; decide, rfl, by decide, by decide, by decide⟩,
   ((handleMove_update_texts heapXO 1 1 2 (newRoom "room_r2" 1 2) _ (moveRequest 0 0)
      (by unfold Accepted; decide) rfl rfl).2.2.2
        (Reachable.fresh "room_r2" 1 2) (by decide) (by decide)).2 (by decide)⟩

/-! ## The two-player scenario -/

/-- C9, as stated, fails: P1 holds X and P2 holds O, and after the requests P1 (0,0),
P2 (0,0), P1 (1,0), P2 (0,1), P1 (1,1), P2 (0,2) it is not the case that row 0 is
entirely P2's mark with the match finished, P2's mark the winner, and the last update
telling P1 "You lost!" and P2 "You won!": cell (0,0) holds P1's mark and the match is
still playing. -/
theorem scenario_row_zero_not_won :
    (serverTwo.heap 1).Symbol = "X" ∧ (serverTwo.heap 2).Symbol = "O" ∧
    ¬ ((∃ room, afterP2At02.1.rooms "room_r2" = some room ∧
          (∀ j, room.Board 0 j = (serverTwo.heap 2).Symbol) ∧ room.Status = "finished" ∧
          room.Winner = (serverTwo.heap 2).Symbol) ∨
        afterP2At02.2.map summary =
          [(101, "update", "", "You lost!"), (102, "update", "", "You won!")]) := by
  refine ⟨by decide, by decide, ?_⟩
  rintro (⟨room, h, -, hs, -⟩ | h)
  · have hv : (afterP2At02.1.rooms "room_r2").map (fun r => r.Status) = some "playing" := by
      decide
    rw [h] at hv
    simp only [Option.map_some', Option.some.injEq] at hv
    rw [hs] at hv
    revert hv; decide
  · revert h; decide

/-- C9, amended: from the empty server, P1 connects and gets `connected` and `waiting`;
P2 connects and both get `matched`, P1 with mark X and the turn X; P1 (0,0) is
broadcast to both as an update with turn O; P2 (0,0) gives P2 alone the error "Cell
already occupied" and leaves the room as it was; P1 (1,0) gives P1 alone the error
"Not your turn" and leaves the room as it was; P2 (0,1), P1 (1,1) and P2 (0,2) are
accepted in turn; at the end row 0 is X, O, O, the match is still playing with no
winner and turn X, and the last update tells P1 "Your turn" and P2 "Opponent's turn". -/
theorem scenario_actual_run :
    ((handleWebSocket Server.start 1 101 "aaaaaaaa" "r1").2.map summary =
        [(101, "connected", "", "Connected to server. Waiting for opponent..."),
         (101, "waiting", "", "Waiting for another player...")]) ∧
    ((handleWebSocket serverOne 2 102 "bbbbbbbb" "r2").2.map
        (fun s => (s.1, s.2.Type_, s.2.RoomID, s.2.Symbol, s.2.Turn)) =
        [(102, "connected", "", "", ""), (101, "matched", "room_r2", "X", "X"),
         (102, "matched", "room_r2", "O", "X")]) ∧
    (afterP1At00.2.map summary =
        [(101, "update", "", "Opponent's turn"), (102, "update", "", "Your turn")] ∧
      roomView afterP1At00.1 =
        some ([["X", "", ""], ["", "", ""], ["", "", ""]], "O", "playing", "")) ∧
    (afterP2At00.2.map summary = [(102, "error", "Cell already occupied", "")] ∧
      afterP2At00.1.rooms "room_r2" = afterP1At00.1.rooms "room_r2") ∧
    (afterP1At10.2.map summary = [(101, "error", "Not your turn", "")] ∧
      afterP1At10.1.rooms "room_r2" = afterP1At00.1.rooms "room_r2") ∧
    (afterP2At01.2.map summary =
        [(101, "update", "", "Your turn"), (102, "update", "", "Opponent's turn")] ∧
      roomView afterP2At01.1 =
        some ([["X", "O", ""], ["", "", ""], ["", "", ""]], "X", "playing", "")) ∧
    (afterP1At11.2.map summary =
        [(101, "update", "", "Opponent's turn"), (102, "update", "", "Your turn")] ∧
      roomView afterP1At11.1 =
        some ([["X", "O", ""], ["", "X", ""], ["", "", ""]], "O", "playing", "")) ∧
    (afterP2At02.2.map summary =
        [(101, "update", "", "Your turn"), (102, "update", "", "Opponent's turn")] ∧
      roomView afterP2At02.1 =
        some ([["X", "O", "O"], ["", "X", ""], ["", "", ""]], "X", "playing", "")) := by
  refine ⟨by decide, by decide, ⟨by decide, by decide⟩, ⟨by decide, rfl⟩, ⟨by decide, rfl⟩,
    ⟨by decide, by decide⟩, ⟨by decide, by decide⟩, ⟨by decide, by decide⟩⟩

/-! ## Turn, status and winner of reachable rooms -/

/-- C11: in every room reachable from a room freshly created by `matchPlayer` through
`handleMove` calls, the turn is X or O if and only if the status is playing, the
winner is X, O or draw if and only if the status is finished, and the status is one
of the two. -/
theorem turn_defined_iff_playing (room : Room) (hr : Reachable room) :
    ((room.Turn = "X" ∨ room.Turn = "O") ↔ room.Status = "playing") ∧
    ((room.Winner = "X" ∨ room.Winner = "O" ∨ room.Winner = "draw") ↔
      room.Status = "finished") ∧
    (room.Status = "playing" ∨ room.Status = "finished") := by
  have inv := reachable_inv hr
  by_cases hf : room.Status = "finished"
  · obtain ⟨ht, hw, -⟩ := inv.finished hf
    refine ⟨⟨?_, ?_⟩, ⟨fun _ => hf, fun _ => ?_⟩, Or.inr hf⟩
    · rw [ht]
      rintro (h | h) <;> exact absurd h (by decide)
    · intro hp
      rw [hf] at hp
      exact absurd hp (by decide)
    · rcases hw with h | h | h
      · exact Or.inr (Or.inr h)
      · exact Or.inl h
      · exact Or.inr (Or.inl h)
  · obtain ⟨hp, ht, hw⟩ := inv.active hf
    refine ⟨⟨fun _ => hp, fun _ => ht⟩, ⟨?_, fun h => absurd h hf⟩, Or.inl hp⟩
    rw [hw]
    rintro (h | h | h) <;> exact absurd h (by decide)

/-- Witness for C11: the room after X has won row 0 is reachable and finished with
winner X. -/
theorem turn_defined_iff_playing_witness :
    (roomXWon.Winner = "X" ∨ roomXWon.Winner = "O" ∨ roomXWon.Winner = "draw") ↔
      roomXWon.Status = "finished" :=
  (turn_defined_iff_playing roomXWon
    (Reachable.move heapXO 1 (moveRequest 0 2) (Reachable.move heapXO 2 (moveRequest 1 1)
      (Reachable.move heapXO 1 (moveRequest 0 1) (Reachable.move heapXO 2 (moveRequest 1 0)
        (Reachable.move heapXO 1 (moveRequest 0 0) (Reachable.fresh "room_r2" 1 2))))))).2.1

/-! ## Frame of a move -/

/-- C12: for every room and every call of `handleMove`, a cell that was non-empty
before the call holds the same mark after it, and at most one cell differs after the
call; on an accepted move the target cell was empty and holds the mover's mark
afterwards (so it differs when that mark is non-empty), and every other cell is
unchanged; on a rejected request no cell changes. -/
theorem handleMove_board_frame (heap : PlayerRef → Player) (player : PlayerRef)
    (room : Room) (msg : Message) :
    (∀ i j, room.Board i j ≠ "" →
      (handleMove heap player room msg).1.Board i j = room.Board i j) ∧
    (∀ i j k l, (handleMove heap player room msg).1.Board i j ≠ room.Board i j →
      (handleMove heap player room msg).1.Board k l ≠ room.Board k l → i = k ∧ j = l) ∧
    (Accepted heap player room msg →
      room.Board (idx msg.Row) (idx msg.Col) = "" ∧
      (handleMove heap player room msg).1.Board (idx msg.Row) (idx msg.Col) =
        (heap player).Symbol ∧
      ((heap player).Symbol ≠ "" →
        (handleMove heap player room msg).1.Board (idx msg.Row) (idx msg.Col) ≠
          room.Board (idx msg.Row) (idx msg.Col)) ∧
      (∀ i j, ¬ (i = idx msg.Row ∧ j = idx msg.Col) →
        (handleMove heap player room msg).1.Board i j = room.Board i j)) ∧
    (RejectCond heap player room msg →
      (handleMove heap player room msg).1.Board = room.Board) := by
  by_cases hc : RejectCond heap player room msg
  · obtain ⟨text, ht⟩ := handleMove_of_rejectCond heap player room msg hc
    rw [ht]
    refine ⟨fun _ _ _ => rfl, fun i j k l h => absurd rfl h, ?_, fun _ => rfl⟩
    intro ha
    exact absurd hc ((not_rejectCond_iff _ _ _ _).2 ha)
  · have ha := (not_rejectCond_iff _ _ _ _).1 hc
    have hcell : ∀ i j, (handleMove heap player room msg).1.Board i j =
        if i = idx msg.Row ∧ j = idx msg.Col then (heap player).Symbol else room.Board i j := by
      intro i j
      rw [handleMove_of_accepted heap player room msg ha, settle_board]
      exact setCell_apply _ _ _ _ _ _
    have hother : ∀ i j, ¬ (i = idx msg.Row ∧ j = idx msg.Col) →
        (handleMove heap player room msg).1.Board i j = room.Board i j := by
      intro i j hij
      rw [hcell, if_neg hij]
    have htarget : ∀ i j, (handleMove heap player room msg).1.Board i j ≠ room.Board i j →
        i = idx msg.Row ∧ j = idx msg.Col := by
      intro i j hne
      by_contra hij
      exact hne (hother i j hij)
    refine ⟨?_, ?_, fun _ => ⟨ha.2.2, ?_, ?_, hother⟩, fun h => absurd h hc⟩
    · intro i j hne
      apply hother
      rintro ⟨rfl, rfl⟩
      exact hne ha.2.2
    · intro i j k l h1 h2
      obtain ⟨e1, e2⟩ := htarget i j h1
      obtain ⟨e3, e4⟩ := htarget k l h2
      exact ⟨e1.trans e3.symm, e2.trans e4.symm⟩
    · rw [hcell, if_pos ⟨rfl, rfl⟩]
    · intro hs
      rw [hcell, if_pos ⟨rfl, rfl⟩, ha.2.2]
      exact hs

/-! ## Symmetry of win detection -/

/-- C13: for every board, `checkWinner` of the board with X and O exchanged is
`checkWinner` of the board with the same exchange applied to the result: X becomes O,
O becomes X, and no winner stays no winner. -/
theorem checkWinner_swap (board : Board) :
    checkWinner (swapBoard board) = swapMark (checkWinner board) ∧
    (checkWinner board = "X" → checkWinner (swapBoard board) = "O") ∧
    (checkWinner board = "O" → checkWinner (swapBoard board) = "X") ∧
    (checkWinner board = "" → checkWinner (swapBoard board) = "") := by
  have key := checkWinner_map swapMark swapMark_injective rfl board
  have key2 : checkWinner (swapBoard board) = swapMark (checkWinner board) := key
  refine ⟨key2, ?_, ?_, ?_⟩
  · intro h; rw [key2, h]; rfl
  · intro h; rw [key2, h]; rfl
  · intro h; rw [key2, h]; rfl

/-! ## The order of the winner scan -/

/-- C16: in a reachable room, when an accepted move of a mover holding a (non-empty)
mark leaves a filled line on the board, every line of three equal non-empty marks
holds the mover's mark, the room is finished with the mover's mark as winner, and a
scan of the 8 lines in any order gives that same winner; the scan of `checkWinner` is
the one in the order rows, columns, diagonals. -/
theorem winner_scan_order_free (heap : PlayerRef → Player) (player : PlayerRef)
    (room : Room) (msg : Message) (hr : Reachable room)
    (hacc : Accepted heap player room msg) (hsym : (heap player).Symbol ≠ "")
    (hwin : checkWinner (handleMove heap player room msg).1.Board ≠ "") :
    (∀ m, HasLine (handleMove heap player room msg).1.Board m → m = (heap player).Symbol) ∧
    (handleMove heap player room msg).1.Status = "finished" ∧
    (handleMove heap player room msg).1.Winner = (heap player).Symbol ∧
    (∀ order : List (Cell × Cell × Cell), (∀ l, l ∈ order ↔ l ∈ lines) →
      scanLines order (handleMove heap player room msg).1.Board =
        (handleMove heap player room msg).1.Winner) ∧
    checkWinner (handleMove heap player room msg).1.Board =
      scanLines lines (handleMove heap player room msg).1.Board := by
  have hb : (handleMove heap player room msg).1.Board = placed heap player room msg := by
    rw [handleMove_of_accepted heap player room msg hacc, settle_board]
  rw [hb] at hwin ⊢
  have hall : ∀ m, HasLine (placed heap player room msg) m → m = (heap player).Symbol :=
    fun m h => lines_hold_mover_mark hr heap player msg hacc hsym m h
  have hline : HasLine (placed heap player room msg) (checkWinner (placed heap player room msg)) := by
    rcases hasLine_of_checkWinner_cases (placed heap player room msg) with ⟨h0, -⟩ | ⟨-, h1⟩
    · exact absurd h0 hwin
    · exact h1
  have hsettle := settle_of_winner room _ hwin
  have hwinner : (handleMove heap player room msg).1.Winner = (heap player).Symbol := by
    rw [handleMove_of_accepted heap player room msg hacc, hsettle]
    exact hall _ hline
  refine ⟨hall, ?_, hwinner, ?_, checkWinner_eq_scanLines _⟩
  · rw [handleMove_of_accepted heap player room msg hacc, hsettle]
  · intro order hord
    rw [hwinner]
    obtain ⟨l, hl, hm⟩ := hline
    have hfl : lineFilled (placed heap player room msg) l = true := by
      rw [lineFilled_iff, lineOf_first_cell hm]
      exact hm
    unfold scanLines
    cases hfind : order.find? (lineFilled (placed heap player room msg)) with
    | none =>
      exfalso
      have := List.find?_eq_none.1 hfind l ((hord l).2 hl)
      exact this hfl
    | some l2 =>
      have h1 := List.find?_some hfind
      have h2 := (hord l2).1 (List.mem_of_find?_eq_some hfind)
      exact hall _ ⟨l2, h2, (lineFilled_iff _ _).1 h1⟩

/-- Witness for C16: X holds (0,0) and (0,1) and moves (0,2); the winner is X. -/
theorem winner_scan_order_free_witness :
    (Accepted heapXO 1 roomXToWin (moveRequest 0 2) ∧ (heapXO 1).Symbol ≠ "" ∧
      checkWinner (handleMove heapXO 1 roomXToWin (moveRequest 0 2)).1.Board ≠ "") ∧
    (handleMove heapXO 1 roomXToWin (moveRequest 0 2)).1.Winner = (heapXO 1).Symbol :=
  ⟨⟨by unfold Accepted; decide, by decide, by decide⟩,
   (winner_scan_order_free heapXO 1 roomXToWin (moveRequest 0 2)
      (reachable_runMoves heapXO _ (Reachable.fresh "room_r2" 1 2))
      (by unfold Accepted; decide) (by decide) (by decide)).2.2.1⟩

/-! ## The number of filled lines -/

/-- C15, as stated, fails: in the game X (0,1), O (1,1), X (0,2), O (1,2), X (1,0),
O (2,1), X (2,0), O (2,2) no line is filled after eight accepted moves (four marks
each), the ninth move X (0,0) is accepted, and after it two lines are filled, row 0
and column 0; so it is not the case that every reachable board has at most one filled
line. -/
theorem two_lines_after_one_move :
    Reachable roomTwoLines ∧
    countMark roomEightMoves.Board "X" = 4 ∧ countMark roomEightMoves.Board "O" = 4 ∧
    countFilled roomEightMoves.Board = 0 ∧
    Accepted heapXO 1 roomEightMoves (moveRequest 0 0) ∧
    countFilled roomTwoLines.Board = 2 ∧
    lineFilled roomTwoLines.Board ((0, 0), (0, 1), (0, 2)) = true ∧
    lineFilled roomTwoLines.Board ((0, 0), (1, 0), (2, 0)) = true ∧
    ¬ (∀ room, Reachable room → countFilled room.Board ≤ 1) := by
  have hr : Reachable roomTwoLines :=
    Reachable.move heapXO 1 (moveRequest 0 0)
      (reachable_runMoves heapXO _ (Reachable.fresh "room_r2" 1 2))
  have h2 : countFilled roomTwoLines.Board = 2 := by decide
  refine ⟨hr, by decide, by decide, by decide, by unfold Accepted; decide, h2, by decide,
    by decide, ?_⟩
  intro h
  have := h roomTwoLines hr
  rw [h2] at this
  exact absurd this (by decide)

/-- C15, amended: on the board of every reachable room at most two of the 8 lines
hold three equal non-empty marks, all such lines hold the same mark, and a room that
is not finished has none (so the lines a move fills are new, at most two, and of one
mark). -/
theorem filled_lines_at_most_two (room : Room) (hr : Reachable room) :
    countFilled room.Board ≤ 2 ∧
    (∀ m1 m2, HasLine room.Board m1 → HasLine room.Board m2 → m1 = m2) ∧
    (room.Status ≠ "finished" → countFilled room.Board = 0) := by
  refine ⟨(reachable_count hr).lines_le, ?_, ?_⟩
  · intro m1 m2 h1 h2
    rw [(reachable_lines_winner hr m1 h1).2, (reachable_lines_winner hr m2 h2).2]
  · intro hf
    have hno := reachable_active_no_line hr hf
    unfold countFilled
    rw [List.countP_eq_zero]
    intro l hl hfl
    exact absurd hno ((checkWinner_ne_iff _).2 ⟨_, l, hl, (lineFilled_iff _ _).1 hfl⟩)

/-- Witness for C15, amended: the room with row 0 and column 0 filled by X. -/
theorem filled_lines_at_most_two_witness : countFilled roomTwoLines.Board ≤ 2 :=
  (filled_lines_at_most_two roomTwoLines
    (Reachable.move heapXO 1 (moveRequest 0 0)
      (reachable_runMoves heapXO _ (Reachable.fresh "room_r2" 1 2)))).1

/-! ## Locks -/

/-- C14 fails on the code: players 1 and 3 are seated in different rooms of the
registry; a `move` of player 1 runs the lock steps `roomMutex`, the room's own mutex,
and the two unlocks in reverse; once the goroutine handling it has taken `roomMutex`,
the goroutine handling a `move` of player 3 waits, and it still waits while the first
one is inside `handleMove` holding the mutex of its own room; it proceeds only after
the first has returned. -/
theorem moves_of_two_matches_contend :
    (serverFour.heap 1).RoomID = "room_r2" ∧ (serverFour.heap 3).RoomID = "room_r4" ∧
    (serverFour.rooms "room_r2").isSome = true ∧ (serverFour.rooms "room_r4").isSome = true ∧
    handleMessageLocks serverFour 1 (moveRequest 0 0) =
      [LockStep.lock Mutex.roomMutex, LockStep.lock (Mutex.roomLock "room_r2"),
       LockStep.unlock (Mutex.roomLock "room_r2"), LockStep.unlock Mutex.roomMutex] ∧
    handleMessageLocks serverFour 3 (moveRequest 1 1) =
      [LockStep.lock Mutex.roomMutex, LockStep.lock (Mutex.roomLock "room_r4"),
       LockStep.unlock (Mutex.roomLock "room_r4"), LockStep.unlock Mutex.roomMutex] ∧
    waits (schedule (startHandling serverFour 1 3 (moveRequest 0 0) (moveRequest 1 1)) false)
      true = true ∧
    waits (schedule (schedule
      (startHandling serverFour 1 3 (moveRequest 0 0) (moveRequest 1 1)) false) false)
      true = true ∧
    waits (schedule (schedule (schedule (schedule
      (startHandling serverFour 1 3 (moveRequest 0 0) (moveRequest 1 1)) false) false) false)
        false) true = false := by
  refine ⟨by decide, by decide, by decide, by decide, by decide, by decide, by decide,
    by decide, by decide⟩

end TicTacToe
